import Mathlib

/-!
Verification development for the email ingestion-and-enrichment backend.

The TypeScript services are shallowly embedded: every service method that a
property talks about becomes an executable Lean function over explicit state
(repository tables as lists of rows, the per-owner refresh-lock map as an
association list, external collaborators as explicit outcome parameters).
JavaScript `number` timestamps become `Int` (milliseconds), JS `null` and
`undefined` both become `Option.none`, and JS truthiness is modelled by
explicit helper functions.
-/

namespace EmailTasker

/-- JS truthiness of a nullable string (`null`/`undefined`/`''` are falsy). -/
def jsTruthyStr (s : Option String) : Bool :=
  match s with
  | some v => v ≠ ""
  | none => false

/-- JS truthiness of a nullable number (`null`/`undefined`/`0` are falsy). -/
def jsTruthyNum (n : Option Int) : Bool :=
  match n with
  | some v => v ≠ 0
  | none => false

/-! ## Credential Manager: `GmailToken` rows (gmail-token.entity.ts)

A `gmail_tokens` row: one row per owner (unique index on `userId`).
`accessTokenExpiry` is a nullable `Date`, modelled as milliseconds since
epoch. -/

structure GmailToken where
  userId : Nat
  refreshToken : String
  accessToken : Option String
  accessTokenExpiry : Option Int
deriving DecidableEq, Repr

/-- The `gmail_tokens` table. -/
abbrev TokenStore := List GmailToken

/-- `gmailTokenRepository.findOne({ where: { userId } })`. -/
def findTokenByUserId (store : TokenStore) (userId : Nat) : Option GmailToken :=
  store.find? (fun t => t.userId == userId)

/-- `gmailTokenRepository.save(token)`: update the (unique) row with this
`userId` when present, insert otherwise. -/
def saveTokenRow (store : TokenStore) (row : GmailToken) : TokenStore :=
  if (store.find? (fun t => t.userId == row.userId)).isSome then
    store.map (fun t => if t.userId == row.userId then row else t)
  else
    store ++ [row]

/-- `gmailTokenRepository.delete({ userId })`. -/
def deleteTokenRows (store : TokenStore) (userId : Nat) : TokenStore :=
  store.filter (fun t => t.userId != userId)

/-- `GmailService.saveGmailTokens` (gmail.service.ts lines 72-101).
`refreshToken` and `expiryDate` are nullable; the stored refresh token is
overwritten only when the argument is truthy.  `expiryDate ? new
Date(expiryDate) : null` maps a missing (or zero, i.e. falsy) expiry to
`null`.  The trailing `email` parameter of the source is unused by the
method body and omitted. -/
def saveGmailTokens (store : TokenStore) (userId : Nat) (accessToken : String)
    (refreshToken : Option String) (expiryDate : Option Int) : TokenStore :=
  let accessTokenExpiry : Option Int :=
    if jsTruthyNum expiryDate then expiryDate else none
  match findTokenByUserId store userId with
  | some token =>
      let updated : GmailToken :=
        { token with
          accessToken := some accessToken
          refreshToken :=
            if jsTruthyStr refreshToken then refreshToken.getD token.refreshToken
            else token.refreshToken
          accessTokenExpiry := accessTokenExpiry }
      saveTokenRow store updated
  | none =>
      saveTokenRow store
        { userId := userId
          accessToken := some accessToken
          refreshToken := refreshToken.getD ""
          accessTokenExpiry := accessTokenExpiry }

/-- `GmailService.saveGmailToken` (gmail.service.ts lines 113-142), the
variant used by the refresh path.  `accessTokenExpiry = accessToken &&
expiresIn ? new Date(Date.now() + expiresIn * 1000) : null`; the stored
access token is only overwritten when the argument is truthy. -/
def saveGmailToken (store : TokenStore) (userId : Nat) (refreshToken : String)
    (accessToken : Option String) (expiresIn : Option Int) (now : Int) : TokenStore :=
  let accessTokenExpiry : Option Int :=
    if jsTruthyStr accessToken && jsTruthyNum expiresIn then
      some (now + (expiresIn.getD 0) * 1000)
    else none
  match findTokenByUserId store userId with
  | some token =>
      let updated : GmailToken :=
        if jsTruthyStr accessToken then
          { token with
            refreshToken := refreshToken
            accessToken := accessToken
            accessTokenExpiry := accessTokenExpiry }
        else
          { token with refreshToken := refreshToken }
      saveTokenRow store updated
  | none =>
      saveTokenRow store
        { userId := userId
          refreshToken := refreshToken
          accessToken := if jsTruthyStr accessToken then accessToken else none
          accessTokenExpiry := accessTokenExpiry }

/-- The credential object returned by `oauth2Client.refreshAccessToken()`. -/
structure OAuthCreds where
  access_token : Option String
  expiry_date : Option Int
deriving DecidableEq, Repr

/-- `GmailService.refreshAccessToken` (gmail.service.ts lines 187-219).
The external OAuth renewal call is an explicit outcome parameter.  On
success the renewed credential is stored via `saveGmailToken`; on failure
the stored credential row is deleted and the call fails with a message
directing the caller to re-authenticate.  `Math.floor` on the millisecond
difference is `Int.fdiv`. -/
def refreshAccessToken (store : TokenStore) (userId : Nat) (refreshToken : String)
    (now : Int) (oauth : Except String OAuthCreds) :
    Except String String × TokenStore :=
  match oauth with
  | .ok credentials =>
      let newAccessToken := credentials.access_token.getD ""
      let expiresIn : Option Int :=
        if jsTruthyNum credentials.expiry_date then
          some (Int.fdiv ((credentials.expiry_date.getD 0) - now) 1000)
        else none
      ( .ok newAccessToken,
        saveGmailToken store userId refreshToken (some newAccessToken) expiresIn now )
  | .error e =>
      ( .error ("Failed to refresh access token: " ++ e ++ ". Please re-authenticate."),
        deleteTokenRows store userId )

/-- The freshness check of `getValidAccessToken` (gmail.service.ts lines
159-165): the cached short-lived credential is returned as-is exactly when
the access token is truthy, an expiry is set, and the expiry is more than
the 5-minute safety margin away. -/
def tokenStillValid (t : GmailToken) (now : Int) : Bool :=
  jsTruthyStr t.accessToken &&
    match t.accessTokenExpiry with
    | some e => decide (e > now + 5 * 60 * 1000)
    | none => false

/-! ## Credential Manager concurrency: `getValidAccessToken`
(gmail.service.ts lines 147-182)

JavaScript is single-threaded with cooperative scheduling: code between two
`await`s runs without interleaving.  After its initial `await
...findOne(...)` a caller synchronously (a) re-checks token freshness,
(b) checks the per-owner `refreshLocks` map, and (c) if absent, starts
`refreshAccessToken` and registers its promise — steps (b) and (c) form one
atomic block.  We embed the method as a small-step transition system whose
atomic actions are exactly the code runs between suspension points. -/

/-- Where a caller of `getValidAccessToken` currently is. -/
inductive CallerPC where
  /-- Resumed from `findOne` with a token that failed `tokenStillValid`;
  about to run the `refreshLocks` block (lines 168-174). -/
  | ready
  /-- Registered renewal `r` in `refreshLocks` and is awaiting it inside the
  `try` block (lines 173-178). -/
  | leader (r : Nat)
  /-- Found renewal `r` already in `refreshLocks` and is awaiting that same
  promise (line 169). -/
  | waiting (r : Nat)
  /-- The method returned (or threw). -/
  | done
  /-- `tokenStillValid` succeeded: returned the cached token (line 164). -/
  | cached
deriving DecidableEq, Repr

/-- One concurrent invocation of `getValidAccessToken`. -/
structure Caller where
  owner : Nat
  pc : CallerPC
deriving DecidableEq, Repr

/-- State shared by the concurrent callers: the in-process
`refreshLocks : Map<number, Promise>` (owner id to renewal id) plus the
status of every renewal started so far (`none` = still in flight,
`some ok` = settled with success/failure). -/
structure CMState where
  refreshLocks : List (Nat × Nat)
  callers : List Caller
  renewals : List (Option Bool)
deriving DecidableEq, Repr

/-- `Map.get` / `Map.has` on the lock map. -/
def locksGet (m : List (Nat × Nat)) (k : Nat) : Option Nat :=
  (m.find? (fun p => p.1 == k)).map (fun p => p.2)

/-- `Map.set` on the lock map. -/
def locksSet (m : List (Nat × Nat)) (k v : Nat) : List (Nat × Nat) :=
  if (m.find? (fun p => p.1 == k)).isSome then
    m.map (fun p => if p.1 == k then (k, v) else p)
  else
    m ++ [(k, v)]

/-- `Map.delete` on the lock map. -/
def locksDelete (m : List (Nat × Nat)) (k : Nat) : List (Nat × Nat) :=
  m.filter (fun p => p.1 != k)

/-- The scheduler's atomic actions. -/
inductive CMAction where
  /-- Caller `i` runs the synchronous lock-check block: if a renewal is
  registered for its owner it awaits that promise, otherwise it starts
  `refreshAccessToken` and registers the new promise (lines 168-174). -/
  | check (i : Nat)
  /-- The external renewal call of renewal `r` completes, successfully or
  not. -/
  | settle (r : Nat) (ok : Bool)
  /-- The leader of renewal `r` resumes from `await refreshPromise`; its
  `finally` removes the map entry (lines 176-181). -/
  | finish (i : Nat)
  /-- A caller awaiting renewal `r` resumes (line 169). -/
  | resume (i : Nat)
deriving DecidableEq, Repr

/-- One atomic step; `none` when the action is not enabled. -/
def cmStep (s : CMState) (a : CMAction) : Option CMState :=
  match a with
  | .check i =>
      match s.callers.get? i with
      | some c =>
          match c.pc with
          | .ready =>
              match locksGet s.refreshLocks c.owner with
              | some r =>
                  some { s with callers := s.callers.set i { c with pc := .waiting r } }
              | none =>
                  let r := s.renewals.length
                  some { s with
                    renewals := s.renewals ++ [none]
                    refreshLocks := locksSet s.refreshLocks c.owner r
                    callers := s.callers.set i { c with pc := .leader r } }
          | _ => none
      | none => none
  | .settle r ok =>
      match s.renewals.get? r with
      | some none => some { s with renewals := s.renewals.set r (some ok) }
      | _ => none
  | .finish i =>
      match s.callers.get? i with
      | some c =>
          match c.pc with
          | .leader r =>
              match s.renewals.get? r with
              | some (some _) =>
                  some { s with
                    refreshLocks := locksDelete s.refreshLocks c.owner
                    callers := s.callers.set i { c with pc := .done } }
              | _ => none
          | _ => none
      | none => none
  | .resume i =>
      match s.callers.get? i with
      | some c =>
          match c.pc with
          | .waiting r =>
              match s.renewals.get? r with
              | some (some _) =>
                  some { s with callers := s.callers.set i { c with pc := .done } }
              | _ => none
          | _ => none
      | none => none

/-- Run a schedule of atomic actions. -/
def cmRun (s : CMState) : List CMAction → Option CMState
  | [] => some s
  | a :: as =>
      match cmStep s a with
      | some s1 => cmRun s1 as
      | none => none

/-- Entry behaviour of one `getValidAccessToken` call after its `findOne`:
missing row throws (line 153), a still-valid cached token is returned
unchanged (line 164), otherwise the caller proceeds to the lock block. -/
def getValidAccessTokenEntry (row : Option GmailToken) (now : Int) : CallerPC :=
  match row with
  | none => .done
  | some tok => if tokenStillValid tok now then .cached else .ready

/-- `n` concurrent `getValidAccessToken` invocations for owner `u`, all
having observed the same stored row. -/
def cmInit (u n : Nat) (row : Option GmailToken) (now : Int) : CMState :=
  { refreshLocks := []
    callers := List.replicate n { owner := u, pc := getValidAccessTokenEntry row now }
    renewals := [] }

def isCheck : CMAction → Bool
  | .check _ => true
  | _ => false

def isSettle : CMAction → Bool
  | .settle _ _ => true
  | _ => false

/-- The schedule keeps all lock-checks inside the first renewal's flight
window: once a renewal has settled, no further caller reaches its
lock-check (this is what "N concurrent calls" means). -/
def checksDuringFlight : List CMAction → Bool
  | [] => true
  | a :: as =>
      (if isSettle a then as.all (fun b => !isCheck b) else true) && checksDuringFlight as

/-- Whether some renewal has settled. -/
def cmSettled (s : CMState) : Bool :=
  s.renewals.any (fun st => st.isSome)

def isLeaderPC : CallerPC → Bool
  | .leader _ => true
  | _ => false

/-- Number of callers currently inside the leader `try` block. -/
def leaderCount (s : CMState) : Nat :=
  s.callers.countP (fun c => isLeaderPC c.pc)

/-- Concrete data for exercising the single-flight system: an expired
cached token for owner 7. -/
def cmTokExample : GmailToken :=
  { userId := 7, refreshToken := "rt", accessToken := some "at",
    accessTokenExpiry := some 1000 }

/-- A concrete schedule: two callers check, the renewal settles, the
leader's `finally` runs, the waiter resumes. -/
def cmScheduleExample : List CMAction :=
  [CMAction.check 0, CMAction.check 1, CMAction.settle 0 true,
   CMAction.finish 0, CMAction.resume 1]

/-- The final state that the concrete schedule reaches. -/
def cmFinalExample : CMState :=
  { refreshLocks := []
    callers := [{ owner := 7, pc := CallerPC.done },
                { owner := 7, pc := CallerPC.done }]
    renewals := [some true] }

/-- Inductive invariant of the single-flight protocol for owner `u`, for a
run that starts with every caller at the lock-check. -/
structure CMInv (u : Nat) (s : CMState) : Prop where
  owners : ∀ c ∈ s.callers, c.owner = u
  renewalsLen : s.renewals.length ≤ 1
  noRenewal : s.renewals = [] →
    s.refreshLocks = [] ∧ ∀ c ∈ s.callers, c.pc = CallerPC.ready
  pcZero : ∀ c ∈ s.callers, ∀ r : Nat,
    (c.pc = CallerPC.leader r ∨ c.pc = CallerPC.waiting r) → r = 0 ∧ s.renewals ≠ []
  doneSettled : ∀ c ∈ s.callers, c.pc = CallerPC.done →
    ∃ ok : Bool, s.renewals.get? 0 = some (some ok)
  lockLeader : (s.refreshLocks = [(u, 0)] ∧ leaderCount s = 1) ∨
    (s.refreshLocks = [] ∧ leaderCount s = 0)
  pendingLeader : s.renewals.get? 0 = some none → leaderCount s = 1

/-! ## Source Fetcher: `fetchAndStoreEmails` (gmail.service.ts lines 233-509)

The Gmail API, the user table and the database save outcome are explicit
environment parameters.  Header/body/date parsing (lines 319-399) fills
display fields that no claim constrains; the fetched `MessageDetail`
carries the values that parsing produces, while the claim-relevant
structure — the nullable message id, the missing-payload check, the
per-owner dedup on `gmailId`, the counters, and the per-item error
isolation — is embedded step for step. -/

/-- A body part of the raw Gmail payload (used by the attachment scan). -/
structure MessagePart where
  filename : String
  mimeType : Option String
deriving DecidableEq, Repr

/-- The content of one fully fetched message (`messages.get`), after header
and body extraction. -/
structure MessageDetail where
  hasPayload : Bool
  subject : String
  snippet : String
  bodyText : String
  bodyHtml : String
  fromEmail : String
  fromName : String
  threadId : Option String
  parts : List MessagePart
deriving DecidableEq, Repr

/-- An `email_raw` row (email-raw.entity.ts): identity fields plus the
fields the enrichment pipeline reads.  `from` is a Lean keyword, so the
column is `fromEmail`.  `rawData` is carried as its parsed payload parts. -/
structure EmailRaw where
  id : Nat
  userId : Nat
  gmailId : String
  subject : String
  snippet : String
  bodyText : String
  bodyHtml : String
  fromEmail : String
  fromName : String
  threadId : Option String
  parts : List MessagePart
deriving DecidableEq, Repr

/-- The `email_raw` table with its id sequence. -/
structure EmailStore where
  rows : List EmailRaw
  nextId : Nat
deriving DecidableEq, Repr

/-- Failure of the initial `messages.list` call (`error.code` /
`error.response.status`). -/
inductive ListErr where
  | http401
  | http403
  | enotfound
  | econnrefused
  | other (msg : String)
deriving DecidableEq, Repr

/-- Environment of one `fetchAndStoreEmails` run: user row presence,
credential outcome, the listing outcome, the per-message fetch oracle and
the per-message database save outcome. -/
structure FetchEnv where
  userExists : Bool
  credential : Except String String
  listResult : Except ListErr (List (Option String))
  getMessage : String → Except String MessageDetail
  saveFails : String → Bool

/-- The `{ success, count, message }` result of `fetchAndStoreEmails`. -/
structure FetchResult where
  success : Bool
  count : Nat
  message : String
deriving DecidableEq, Repr

/-- `emailRawRepository.findOne({ where: { gmailId, userId } }).isSome`. -/
def emailExists (st : EmailStore) (gmailId : String) (userId : Nat) : Bool :=
  st.rows.any (fun r => r.gmailId == gmailId && r.userId == userId)

/-- Number of rows for one (owner, external id) pair. -/
def countEmails (st : EmailStore) (gmailId : String) (userId : Nat) : Nat :=
  (st.rows.filter (fun r => r.gmailId == gmailId && r.userId == userId)).length

/-- `emailRawRepository.create({...})` (lines 403-429): the row built from
a fetched message. -/
def buildEmailRaw (ident userId : Nat) (gmailId : String) (d : MessageDetail) :
    EmailRaw :=
  { id := ident
    userId := userId
    gmailId := gmailId
    subject := d.subject
    snippet := d.snippet
    bodyText := d.bodyText
    bodyHtml := d.bodyHtml
    fromEmail := d.fromEmail
    fromName := d.fromName
    threadId := d.threadId
    parts := d.parts }

/-- Mutable loop state of the message loop (lines 274-448), plus a trace of
the `messages.get` calls actually issued. -/
structure FetchLoopState where
  store : EmailStore
  storedCount : Nat
  skippedCount : Nat
  storedEmailIds : List Nat
  fetchedIds : List String
deriving DecidableEq, Repr

def initLoopState (st : EmailStore) : FetchLoopState :=
  { store := st, storedCount := 0, skippedCount := 0,
    storedEmailIds := [], fetchedIds := [] }

/-- One iteration of the message loop (lines 280-448): a nullable id is
skipped; an id already stored for this owner only bumps `skippedCount`;
otherwise the message is fetched — a fetch failure, a missing payload or a
database save failure is logged and the loop continues — and on success the
parsed row is persisted. -/
def processMessage (env : FetchEnv) (userId : Nat) (acc : FetchLoopState)
    (m : Option String) : FetchLoopState :=
  match m with
  | none => acc
  | some mid =>
      if emailExists acc.store mid userId then
        { acc with skippedCount := acc.skippedCount + 1 }
      else
        match env.getMessage mid with
        | .error _ => { acc with fetchedIds := acc.fetchedIds ++ [mid] }
        | .ok d =>
            if !d.hasPayload then
              { acc with fetchedIds := acc.fetchedIds ++ [mid] }
            else if env.saveFails mid then
              { acc with fetchedIds := acc.fetchedIds ++ [mid] }
            else
              { store := { rows := acc.store.rows ++
                             [buildEmailRaw acc.store.nextId userId mid d]
                           nextId := acc.store.nextId + 1 }
                storedCount := acc.storedCount + 1
                skippedCount := acc.skippedCount
                storedEmailIds := acc.storedEmailIds ++ [acc.store.nextId]
                fetchedIds := acc.fetchedIds ++ [mid] }

/-- The whole message loop. -/
def runFetchLoop (env : FetchEnv) (userId : Nat) (st : EmailStore)
    (msgs : List (Option String)) : FetchLoopState :=
  msgs.foldl (processMessage env userId) (initLoopState st)

/-- The inner `catch` of the listing call (lines 255-272): 401 and 403 are
mapped to structured failures, everything else is rethrown. -/
def listErrorInner : ListErr → Option FetchResult
  | .http401 =>
      some { success := false, count := 0,
             message := "Invalid or expired access token. Please re-authenticate." }
  | .http403 =>
      some { success := false, count := 0,
             message := "Gmail API access denied. Please grant Gmail permissions." }
  | _ => none

/-- The outer `catch` (lines 468-508): 401/403, network errors, generic. -/
def fetchOuterCatch : ListErr → FetchResult
  | .http401 =>
      { success := false, count := 0,
        message := "Invalid or expired access token. Please re-authenticate with Google." }
  | .http403 =>
      { success := false, count := 0,
        message := "Gmail API access denied. Please grant Gmail.readonly permission." }
  | .enotfound =>
      { success := false, count := 0,
        message := "Network error. Cannot connect to Gmail API." }
  | .econnrefused =>
      { success := false, count := 0,
        message := "Network error. Cannot connect to Gmail API." }
  | .other m =>
      { success := false, count := 0, message := "Failed to fetch emails: " ++ m }

/-- `GmailService.fetchAndStoreEmails`.  The Kafka publish after the loop
only fires on `storedCount > 0` and its failure is swallowed (lines
450-461); it does not touch the store or the result and is not part of the
state.  Returns the result together with the final loop state. -/
def fetchAndStoreEmails (env : FetchEnv) (userId : Nat) (st : EmailStore) :
    FetchResult × FetchLoopState :=
  if !env.userExists then
    ({ success := false, count := 0, message := "User not found" },
     initLoopState st)
  else
    match env.credential with
    | .error e =>
        -- a throwing `getValidAccessToken` reaches the outer catch with no
        -- HTTP code attached
        ({ success := false, count := 0,
           message := "Failed to fetch emails: " ++ e }, initLoopState st)
    | .ok _ =>
        match env.listResult with
        | .error e =>
            ( (match listErrorInner e with
               | some r => r
               | none => fetchOuterCatch e),
              initLoopState st )
        | .ok msgs =>
            let ls := runFetchLoop env userId st msgs
            ( { success := true, count := ls.storedCount,
                message := "Successfully stored " ++ toString ls.storedCount ++
                  " emails. " ++ toString ls.skippedCount ++
                  " emails already existed." },
              ls )

/-- Whether processing one message fails (fetch error, missing payload or
database save error). -/
def itemFails (env : FetchEnv) (g : String) : Bool :=
  (match env.getMessage g with
   | .error _ => true
   | .ok d => !d.hasPayload) || env.saveFails g

/-- Equality of loop states up to the fetch-call trace. -/
def loopStateSameResult (a b : FetchLoopState) : Prop :=
  a.store = b.store ∧ a.storedCount = b.storedCount ∧
    a.skippedCount = b.skippedCount ∧ a.storedEmailIds = b.storedEmailIds

/-- An empty `email_raw` table. -/
def emptyEmailStore : EmailStore :=
  { rows := [], nextId := 1 }

/-- A concrete message detail used by the example environments. -/
def detailExample : MessageDetail :=
  { hasPayload := true, subject := "subj", snippet := "sn", bodyText := "body",
    bodyHtml := "", fromEmail := "a@example.com", fromName := "A",
    threadId := none, parts := [] }

/-- A concrete environment: two listed messages, both fetchable, all saves
succeed. -/
def fetchEnvTwoFresh : FetchEnv :=
  { userExists := true
    credential := .ok "tok"
    listResult := .ok (["g1", "g2"].map some)
    getMessage := fun _ => .ok detailExample
    saveFails := fun _ => false }

/-- A concrete environment whose listing call fails with HTTP 401. -/
def fetchEnv401 : FetchEnv :=
  { userExists := true
    credential := .ok "tok"
    listResult := .error ListErr.http401
    getMessage := fun _ => .error "unreachable"
    saveFails := fun _ => false }

/-! ## Summarization response handling: `GeminiService.summarizeEmail`
(gemini.service.ts lines 29-104)

The model's free-form output is handled by `text.match(/\x7b[\s\S]*\x7d/)`
— the span from the first opening brace to the last closing brace — then
`JSON.parse` on the span, then per-key defaulting with JS truthiness.  We
embed a JSON value type and a strict JSON parser (`JSON.parse` accepts a
single JSON text with nothing but whitespace around it). -/

/-- A JavaScript JSON value.  Numbers are `mantissa * 10 ^ exp10`. -/
inductive Json where
  | null
  | bool (b : Bool)
  | num (mantissa : Int) (exp10 : Int)
  | str (s : String)
  | arr (elems : List Json)
  | obj (fields : List (String × Json))

/-- JSON insignificant whitespace. -/
def isJsonWs (c : Char) : Bool :=
  c == ' ' || c == '\t' || c == '\n' || c == '\r'

def skipJsonWs : List Char → List Char
  | [] => []
  | c :: cs => if isJsonWs c then skipJsonWs cs else c :: cs

def hexVal (c : Char) : Option Nat :=
  if '0' ≤ c ∧ c ≤ '9' then some (c.toNat - 48)
  else if 'a' ≤ c ∧ c ≤ 'f' then some (c.toNat - 87)
  else if 'A' ≤ c ∧ c ≤ 'F' then some (c.toNat - 55)
  else none

/-- Parse the contents of a JSON string after the opening quote; returns
the decoded characters and the remainder after the closing quote. -/
def parseStringChars : Nat → List Char → Option (List Char × List Char)
  | 0, _ => none
  | _, [] => none
  | Nat.succ fuel, c :: cs =>
      if c == '"' then some ([], cs)
      else if c == '\\' then
        match cs with
        | [] => none
        | e :: cs2 =>
            let decoded : Option (Char × List Char) :=
              if e == '"' then some ('"', cs2)
              else if e == '\\' then some ('\\', cs2)
              else if e == '/' then some ('/', cs2)
              else if e == 'b' then some ('\x08', cs2)
              else if e == 'f' then some ('\x0c', cs2)
              else if e == 'n' then some ('\n', cs2)
              else if e == 'r' then some ('\r', cs2)
              else if e == 't' then some ('\t', cs2)
              else if e == 'u' then
                match cs2 with
                | h1 :: h2 :: h3 :: h4 :: cs3 =>
                    match hexVal h1, hexVal h2, hexVal h3, hexVal h4 with
                    | some a, some b, some c2, some d =>
                        some (Char.ofNat (((a * 16 + b) * 16 + c2) * 16 + d), cs3)
                    | _, _, _, _ => none
                | _ => none
              else none
            match decoded with
            | some (ch, rest) =>
                match parseStringChars fuel rest with
                | some (out, rem) => some (ch :: out, rem)
                | none => none
            | none => none
      else if c.toNat < 32 then none
      else
        match parseStringChars fuel cs with
        | some (out, rem) => some (c :: out, rem)
        | none => none

def digitsToNat (ds : List Char) : Nat :=
  ds.foldl (fun acc c => acc * 10 + (c.toNat - 48)) 0

/-- The optional fraction part: `(. digits+)?`. -/
def parseFrac (cs : List Char) : Option (List Char × List Char) :=
  match cs with
  | '.' :: rest =>
      let p := rest.span (fun x => x.isDigit)
      if p.1.isEmpty then none else some (p.1, p.2)
  | _ => some ([], cs)

/-- The optional exponent part: `([eE] [+-]? digits+)?`. -/
def parseExp (cs : List Char) : Option (Int × List Char) :=
  match cs with
  | c :: rest =>
      if c == 'e' || c == 'E' then
        let signed : Bool × List Char :=
          match rest with
          | '+' :: r => (false, r)
          | '-' :: r => (true, r)
          | _ => (false, rest)
        let p := signed.2.span (fun x => x.isDigit)
        if p.1.isEmpty then none
        else
          some ((if signed.1 then -(digitsToNat p.1 : Int)
                 else (digitsToNat p.1 : Int)), p.2)
      else some (0, cs)
  | [] => some (0, [])

/-- A JSON number: `-? (0 | [1-9][0-9]*) frac? exp?`. -/
def parseNumber (cs : List Char) : Option (Json × List Char) :=
  let signed : Bool × List Char :=
    match cs with
    | '-' :: rest => (true, rest)
    | _ => (false, cs)
  match signed.2 with
  | [] => none
  | c :: _ =>
      if !c.isDigit then none
      else
        let ip := signed.2.span (fun x => x.isDigit)
        if ip.1.length > 1 && ip.1.headD 'x' == '0' then none
        else
          match parseFrac ip.2 with
          | none => none
          | some (fds, cs3) =>
              match parseExp cs3 with
              | none => none
              | some (e, cs4) =>
                  let mant : Nat := digitsToNat (ip.1 ++ fds)
                  let m : Int := if signed.1 then -(mant : Int) else (mant : Int)
                  some (.num m (e - (fds.length : Int)), cs4)

mutual

/-- One JSON value (leading whitespace allowed), fuel-indexed. -/
def parseJsonValue (fuel : Nat) (cs : List Char) : Option (Json × List Char) :=
  match fuel with
  | 0 => none
  | Nat.succ f =>
      match skipJsonWs cs with
      | 'n' :: 'u' :: 'l' :: 'l' :: rest => some (.null, rest)
      | 't' :: 'r' :: 'u' :: 'e' :: rest => some (.bool true, rest)
      | 'f' :: 'a' :: 'l' :: 's' :: 'e' :: rest => some (.bool false, rest)
      | '"' :: rest =>
          (match parseStringChars (rest.length + 1) rest with
           | some (out, rem) => some (.str (String.mk out), rem)
           | none => none)
      | '[' :: rest =>
          (match skipJsonWs rest with
           | ']' :: rem => some (.arr [], rem)
           | _ => parseJsonElems f rest [])
      | '\x7b' :: rest =>
          (match skipJsonWs rest with
           | '\x7d' :: rem => some (.obj [], rem)
           | _ => parseJsonFields f rest [])
      | c :: rest2 =>
          if c == '-' || c.isDigit then parseNumber (c :: rest2) else none
      | [] => none

/-- Array elements after the opening bracket. -/
def parseJsonElems (fuel : Nat) (cs : List Char) (acc : List Json) :
    Option (Json × List Char) :=
  match fuel with
  | 0 => none
  | Nat.succ f =>
      match parseJsonValue f cs with
      | none => none
      | some (v, rem) =>
          match skipJsonWs rem with
          | ',' :: rem2 => parseJsonElems f rem2 (acc ++ [v])
          | ']' :: rem2 => some (.arr (acc ++ [v]), rem2)
          | _ => none

/-- Object fields after the opening brace. -/
def parseJsonFields (fuel : Nat) (cs : List Char) (acc : List (String × Json)) :
    Option (Json × List Char) :=
  match fuel with
  | 0 => none
  | Nat.succ f =>
      match skipJsonWs cs with
      | '"' :: rest =>
          (match parseStringChars (rest.length + 1) rest with
           | none => none
           | some (key, rem) =>
               match skipJsonWs rem with
               | ':' :: rem2 =>
                   (match parseJsonValue f rem2 with
                    | none => none
                    | some (v, rem3) =>
                        match skipJsonWs rem3 with
                        | ',' :: rem4 =>
                            parseJsonFields f rem4 (acc ++ [(String.mk key, v)])
                        | '\x7d' :: rem4 =>
                            some (.obj (acc ++ [(String.mk key, v)]), rem4)
                        | _ => none)
               | _ => none)
      | _ => none

end

/-- `JSON.parse`: a single JSON text, whitespace only around it. -/
def parseJson (s : String) : Option Json :=
  let cs := s.toList
  match parseJsonValue (2 * cs.length + 2) cs with
  | some (v, rest) => if (skipJsonWs rest).isEmpty then some v else none
  | none => none

/-- The span matched by `/\x7b[\s\S]*\x7d/`: first opening brace up to the
last closing brace at or after it. -/
def jsonSpan (text : String) : Option String :=
  let cs := text.toList
  match cs.findIdx? (fun c => c == '\x7b') with
  | none => none
  | some i =>
      match cs.reverse.findIdx? (fun c => c == '\x7d') with
      | none => none
      | some jr =>
          let j := cs.length - 1 - jr
          if i ≤ j then some (String.mk ((cs.drop i).take (j - i + 1)))
          else none

/-- JS truthiness of a JSON value (`0`, `''`, `false`, `null` are falsy;
objects and arrays, empty or not, are truthy). -/
def jsTruthy : Json → Bool
  | .null => false
  | .bool b => b
  | .num m _ => m != 0
  | .str s => s != ""
  | .arr _ => true
  | .obj _ => true

/-- `v || dflt` on a possibly-absent object member. -/
def jsOr (v : Option Json) (dflt : Json) : Json :=
  match v with
  | some x => if jsTruthy x then x else dflt
  | none => dflt

/-- JS member access `parsed.key` (later duplicate keys win). -/
def jGet (j : Json) (key : String) : Option Json :=
  match j with
  | .obj fields => (fields.reverse.find? (fun f => f.1 == key)).map (fun f => f.2)
  | _ => none

/-- The `{summary, keyPoints, sentiment, category, priority}` record
returned by `summarizeEmail`; fields keep their JS values. -/
structure SummaryData where
  summary : Json
  keyPoints : List Json
  sentiment : Json
  category : Json
  priority : Json

/-- `text.substring(0, 500)`. -/
def jsSubstring500 (text : String) : String :=
  String.mk (text.toList.take 500)

/-- `GeminiService.summarizeEmail` (gemini.service.ts lines 29-104), from
the point where the completion call resolves: `completionText` is
`completion.choices[0]?.message?.content || ''` on success, `.error` when
the API call throws.  The extracted brace span goes through `JSON.parse`
inside the same `try`, so a `SyntaxError` on an unparsable span is caught
by the `catch` at lines 100-103 and rethrown as a summarization failure
(the engine-specific SyntaxError text is abstracted to a fixed string);
only when no brace span exists at all does the fallback at lines 92-99
default every field. -/
def summarizeEmail (completionText : Except String String) :
    Except String SummaryData :=
  match completionText with
  | .error e => .error ("Failed to summarize email: " ++ e)
  | .ok text =>
      match jsonSpan text with
      | some s =>
          match parseJson s with
          | some parsed =>
              .ok { summary := jsOr (jGet parsed "summary") (.str "")
                    keyPoints :=
                      (match jGet parsed "keyPoints" with
                       | some (.arr xs) => xs
                       | _ => [])
                    sentiment := jsOr (jGet parsed "sentiment") (.str "neutral")
                    category := jsOr (jGet parsed "category") (.str "other")
                    priority := jsOr (jGet parsed "priority") (.str "medium") }
          | none =>
              .error "Failed to summarize email: SyntaxError: Unexpected token in JSON"
      | none =>
          .ok { summary := .str (jsSubstring500 text)
                keyPoints := []
                sentiment := .str "neutral"
                category := .str "other"
                priority := .str "medium" }

/-! ## Vector Index: `QdrantService` (qdrant.service.ts, REST client
variant — the one that validates point ids).  The Qdrant server itself is a
collaborator; its documented behaviours (collection listing, upsert by
point id, filtered nearest-neighbour search) are modelled as functions over
an explicit point list, and every client call is recorded in a trace. -/

/-- The payload stored with each vector (qdrant.service.ts lines 105-112):
the service stores `emailRawId, subject, summary, from, userId` (plus a
timestamp, not modelled); the `fromName` the processor passes is dropped
here.  `summary` keeps its JS value. -/
structure VectorPayload where
  emailRawId : Nat
  subject : String
  summary : Json
  fromEmail : String
  userId : Nat

/-- A point in the `emails` collection. -/
structure QdrantPoint where
  id : Nat
  vector : List Int
  payload : VectorPayload

/-- One network call to the vector index. -/
inductive QdrantCall where
  | getCollections
  | createCollection
  | upsertPoints
deriving DecidableEq, Repr

/-- Outcomes of the Qdrant server for one operation. -/
structure QdrantEnv where
  connOk : Bool
  connMsg : String
  collectionExists : Bool
  upsertOk : Bool
  upsertMsg : String
deriving DecidableEq, Repr

/-- `ensureCollection` (qdrant.service.ts lines 32-68): probe the server
(`getCollections`), then list again and create the collection if missing.
Collection creation is assumed to succeed (its 409 race is handled by the
source's catch; no claim touches it). -/
def ensureCollection (qenv : QdrantEnv) : Except String Unit × List QdrantCall :=
  if !qenv.connOk then
    (.error ("Qdrant connection failed: " ++ qenv.connMsg), [QdrantCall.getCollections])
  else if qenv.collectionExists then
    (.ok (), [QdrantCall.getCollections, QdrantCall.getCollections])
  else
    (.ok (), [QdrantCall.getCollections, QdrantCall.getCollections,
              QdrantCall.createCollection])

/-- `Number.isInteger` on a JS number. -/
def isJsInteger (q : Rat) : Bool := q.den == 1

/-- Qdrant upsert semantics: replace the point with this id or add it. -/
def upsertPoint (points : List QdrantPoint) (p : QdrantPoint) : List QdrantPoint :=
  if points.any (fun q => q.id == p.id) then
    points.map (fun q => if q.id == p.id then p else q)
  else points ++ [p]

/-- `QdrantService.storeEmailEmbedding` (qdrant.service.ts lines 77-130).
`await this.ensureCollection()` runs first (line 89); only then is the
point id validated (lines 93-95); then the upsert is issued.  Every thrown
error is wrapped by the catch at lines 119-129 into `Qdrant storage
failed: ...`.  Returns the result, the updated index, and the network-call
trace. -/
def storeEmailEmbedding (qenv : QdrantEnv) (points : List QdrantPoint)
    (emailId : Rat) (embedding : List Int) (payload : VectorPayload) :
    Except String Rat × List QdrantPoint × List QdrantCall :=
  match ensureCollection qenv with
  | (.error e, calls) => (.error ("Qdrant storage failed: " ++ e), points, calls)
  | (.ok _, calls) =>
      if !(isJsInteger emailId && emailId > 0) then
        (.error ("Qdrant storage failed: Invalid emailId: " ++ toString emailId ++
           ". Must be a positive integer."), points, calls)
      else if !qenv.upsertOk then
        (.error ("Qdrant storage failed: " ++ qenv.upsertMsg), points,
         calls ++ [QdrantCall.upsertPoints])
      else
        (.ok emailId,
         upsertPoint points
           { id := emailId.num.toNat, vector := embedding, payload := payload },
         calls ++ [QdrantCall.upsertPoints])

/-- A search hit `{id, score, payload}`. -/
structure SearchHit where
  id : Nat
  score : Rat
  payload : VectorPayload

/-- Insertion into a list sorted by descending score. -/
def insertHitDesc (h : SearchHit) : List SearchHit → List SearchHit
  | [] => [h]
  | x :: xs => if h.score ≥ x.score then h :: x :: xs else x :: insertHitDesc h xs

/-- Sort hits by descending score. -/
def sortHitsDesc : List SearchHit → List SearchHit
  | [] => []
  | x :: xs => insertHitDesc x (sortHitsDesc xs)

/-- The vector index's filtered nearest-neighbour search (collaborator
contract): keep only points whose payload satisfies the equality filter on
`userId`, rank the survivors by descending similarity to the query, return
at most `limit`.  `scoreOf` gives each stored point's similarity to the
query embedding. -/
def qdrantFilteredSearch (points : List QdrantPoint) (scoreOf : Nat → Rat)
    (filterUserId : Nat) (limit : Nat) : List SearchHit :=
  (sortHitsDesc ((points.filter (fun p => p.payload.userId == filterUserId)).map
    (fun p => { id := p.id, score := scoreOf p.id, payload := p.payload }))).take limit

/-- `QdrantService.searchSimilarEmails` (qdrant.service.ts lines 135-169):
search the collection with `filter: must [\x7b key: userId, match: \x7b value:
userId \x7d \x7d]` and the given `limit`; each returned point maps to
`{id, score, payload}`. -/
def searchSimilarEmails (points : List QdrantPoint) (scoreOf : Nat → Rat)
    (userId : Nat) (limit : Nat) : List SearchHit :=
  qdrantFilteredSearch points scoreOf userId limit

/-! ## Enrichment Pipeline: `AIProcessorService.processEmail`
(ai-processor.service.ts lines 47-168) -/

/-- An `email_summary` row (email-summary.entity.ts); JSON-stringified
columns keep their JS values. -/
structure EmailSummaryRow where
  emailRawId : Nat
  summary : Json
  keyPoints : List Json
  sentiment : Json
  category : Json
  priority : Json
  qdrantId : Option Rat

/-- An `email_metadata` row (part of ai entities). -/
structure EmailMetadataRow where
  emailRawId : Nat
  entities : List Json
  topics : List Json
  language : Json
  wordCount : Nat
  readingTime : Nat
  tags : List Json
  actionItems : List Json
  hasAttachment : Bool
  attachmentTypes : Option (List String)

/-- The record returned by `GeminiService.extractMetadata`. -/
structure MetadataData where
  entities : List Json
  topics : List Json
  language : Json
  actionItems : List Json
  tags : List Json

/-- The tables and the vector index as seen by the enrichment pipeline. -/
structure EnrichState where
  emails : List EmailRaw
  summaries : List EmailSummaryRow
  metadatas : List EmailMetadataRow
  points : List QdrantPoint

/-- One external call made by `processEmail`. -/
inductive EnrichCall where
  | summarizeCall
  | extractMetadataCall
  | embedCall
  | qdrant (c : QdrantCall)
deriving DecidableEq, Repr

/-- Outcomes of the external collaborators for one `processEmail` run. -/
structure EnrichEnv where
  summarizeResult : Except String SummaryData
  extractResult : Except String MetadataData
  summarySaveOk : Bool
  metadataSaveOk : Bool
  embedResult : Except String (List Int)
  qenv : QdrantEnv

/-- `emailRawRepository.findOne({ where: { id } })`. -/
def findEmailRaw (emails : List EmailRaw) (ident : Nat) : Option EmailRaw :=
  emails.find? (fun e => e.id == ident)

/-- `emailSummaryRepository.findOne({ where: { emailRawId } })`. -/
def findSummaryRow (summaries : List EmailSummaryRow) (ident : Nat) :
    Option EmailSummaryRow :=
  summaries.find? (fun s => s.emailRawId == ident)

/-- Number of `email_summary` rows for one raw item. -/
def countSummaries (summaries : List EmailSummaryRow) (ident : Nat) : Nat :=
  (summaries.filter (fun s => s.emailRawId == ident)).length

/-- Number of `email_metadata` rows for one raw item. -/
def countMetadatas (metadatas : List EmailMetadataRow) (ident : Nat) : Nat :=
  (metadatas.filter (fun m => m.emailRawId == ident)).length

/-- `savedSummary.qdrantId = qdrantId; save(savedSummary)`. -/
def updateSummaryQdrantId (summaries : List EmailSummaryRow) (ident : Nat)
    (qid : Rat) : List EmailSummaryRow :=
  summaries.map (fun s =>
    if s.emailRawId == ident then { s with qdrantId := some qid } else s)

/-- JS `\s`-matching characters relevant to plain text. -/
def jsWhitespace (c : Char) : Bool :=
  c == ' ' || c == '\t' || c == '\n' || c == '\r' || c == '\x0b' || c == '\x0c'

/-- Number of maximal whitespace runs. -/
def wsRuns : List Char → Bool → Nat
  | [], _ => 0
  | c :: cs, inRun =>
      if jsWhitespace c then (if inRun then 0 else 1) + wsRuns cs true
      else wsRuns cs false

/-- `fullText.split(/\s+/).length`: one more than the number of maximal
whitespace runs (JS keeps empty pieces at the ends). -/
def jsSplitWsCount (s : String) : Nat := wsRuns s.toList false + 1

/-- `emailContent = email.bodyText || email.bodyHtml || email.snippet || ''`
(ai-processor.service.ts line 69). -/
def emailContentOf (email : EmailRaw) : String :=
  if email.bodyText ≠ "" then email.bodyText
  else if email.bodyHtml ≠ "" then email.bodyHtml
  else email.snippet

/-- `fullText` (line 70). -/
def fullTextOf (email : EmailRaw) : String :=
  email.subject ++ "\n\n" ++ emailContentOf email

/-- The attachment scan over the raw payload parts (lines 90-103): parts
with a truthy filename contribute their MIME type (or `unknown`). -/
def attachmentTypesOf (email : EmailRaw) : List String :=
  (email.parts.filter (fun p => p.filename ≠ "")).map (fun p => p.mimeType.getD "unknown")

/-- `emailSummaryRepository.create({...})` (lines 106-113). -/
def mkSummaryRow (emailId : Nat) (sd : SummaryData) : EmailSummaryRow :=
  { emailRawId := emailId, summary := sd.summary, keyPoints := sd.keyPoints,
    sentiment := sd.sentiment, category := sd.category, priority := sd.priority,
    qdrantId := none }

/-- `emailMetadataRepository.create({...})` (lines 118-129). -/
def mkMetadataRow (emailId : Nat) (email : EmailRaw) (md : MetadataData) :
    EmailMetadataRow :=
  { emailRawId := emailId, entities := md.entities, topics := md.topics,
    language := md.language
    wordCount := jsSplitWsCount (fullTextOf email)
    readingTime := (jsSplitWsCount (fullTextOf email) + 199) / 200
    tags := md.tags, actionItems := md.actionItems
    hasAttachment := decide ((attachmentTypesOf email).length > 0)
    attachmentTypes :=
      if (attachmentTypesOf email).length > 0 then some (attachmentTypesOf email)
      else none }

/-- The payload handed to `storeEmailEmbedding` (lines 145-156; the service
keeps `emailRawId, subject, summary, from, userId`). -/
def mkVectorPayload (emailId : Nat) (email : EmailRaw) (sd : SummaryData) :
    VectorPayload :=
  { emailRawId := emailId, subject := email.subject,
    summary := jsOr (some sd.summary) (.str ""),
    fromEmail := email.fromEmail, userId := email.userId }

/-- `AIProcessorService.processEmail` (ai-processor.service.ts lines
47-168), with the collaborators' outcomes explicit: load the raw row
(missing: warn and return); short-circuit when a summary row already
exists; summarize; extract metadata; compute word count / reading time /
attachments; save the summary, then the metadata (either save can fail —
the error propagates to `processEmails`' per-item catch and the state
keeps whatever was already saved); then embed and upsert into the vector
index inside a `try` whose failure is swallowed; on success the summary
row is updated with the returned point id.  Returns the new state, the
external-call trace and the outcome. -/
def processEmail (env : EnrichEnv) (st : EnrichState) (emailId : Nat) :
    EnrichState × List EnrichCall × Except String Unit :=
  match findEmailRaw st.emails emailId with
  | none => (st, [], .ok ())
  | some email =>
      match findSummaryRow st.summaries emailId with
      | some _ => (st, [], .ok ())
      | none =>
          match env.summarizeResult with
          | .error e => (st, [EnrichCall.summarizeCall], .error e)
          | .ok summaryData =>
              match env.extractResult with
              | .error e =>
                  (st, [EnrichCall.summarizeCall, EnrichCall.extractMetadataCall],
                   .error e)
              | .ok metadata =>
                  if !env.summarySaveOk then
                    (st, [EnrichCall.summarizeCall, EnrichCall.extractMetadataCall],
                     .error "summary save failed")
                  else
                    let st1 : EnrichState :=
                      { st with summaries :=
                          st.summaries ++ [mkSummaryRow emailId summaryData] }
                    if !env.metadataSaveOk then
                      (st1, [EnrichCall.summarizeCall, EnrichCall.extractMetadataCall],
                       .error "metadata save failed")
                    else
                      let st2 : EnrichState :=
                        { st1 with metadatas :=
                            st1.metadatas ++ [mkMetadataRow emailId email metadata] }
                      match env.embedResult with
                      | .error _ =>
                          (st2, [EnrichCall.summarizeCall,
                                 EnrichCall.extractMetadataCall,
                                 EnrichCall.embedCall], .ok ())
                      | .ok embedding =>
                          if embedding.length == 0 then
                            (st2, [EnrichCall.summarizeCall,
                                   EnrichCall.extractMetadataCall,
                                   EnrichCall.embedCall], .ok ())
                          else
                            match storeEmailEmbedding env.qenv st2.points
                                (emailId : Rat) embedding
                                (mkVectorPayload emailId email summaryData) with
                            | (.error _, points2, qcalls) =>
                                ({ st2 with points := points2 },
                                 [EnrichCall.summarizeCall,
                                  EnrichCall.extractMetadataCall,
                                  EnrichCall.embedCall] ++
                                   qcalls.map EnrichCall.qdrant, .ok ())
                            | (.ok qid, points2, qcalls) =>
                                ({ st2 with
                                    points := points2
                                    summaries := updateSummaryQdrantId st2.summaries
                                      emailId qid },
                                 [EnrichCall.summarizeCall,
                                  EnrichCall.extractMetadataCall,
                                  EnrichCall.embedCall] ++
                                   qcalls.map EnrichCall.qdrant, .ok ())

/-- Repeated pipeline runs (redeliveries, re-runs after failures): each run
has its own collaborator outcomes and target id. -/
def runPipeline (runs : List (EnrichEnv × Nat)) (st : EnrichState) : EnrichState :=
  runs.foldl (fun s r => (processEmail r.1 s r.2).1) st

/-- `Math.round(score * 100) / 100`. -/
def roundScore (r : Rat) : Rat := ((round (r * 100) : Int) : Rat) / 100

/-- The claim-relevant projection of one enriched search result. -/
structure SearchResultEntry where
  emailId : Nat
  ownerId : Nat
  relevanceScore : Rat
  hasSummary : Bool

/-- `AIController.semanticSearch` (ai.controller.ts, the enriched variant):
embed the query, over-fetch `limit * 2` from the vector index, keep hits
with `score > 0.5`, take `limit`, join each hit back to its raw row
(dropping hits whose backing row is gone) and annotate with the rounded
relevance score and the summary if available. -/
def semanticSearch (points : List QdrantPoint) (scoreOf : Nat → Rat)
    (emails : List EmailRaw) (summaries : List EmailSummaryRow)
    (userId : Nat) (limit : Nat) : List SearchResultEntry :=
  let qdrantResults := searchSimilarEmails points scoreOf userId (limit * 2)
  let filtered := (qdrantResults.filter (fun r => r.score > (1 : Rat) / 2)).take limit
  filtered.filterMap (fun r =>
    match findEmailRaw emails r.payload.emailRawId with
    | none => none
    | some email =>
        some { emailId := email.id
               ownerId := email.userId
               relevanceScore := roundScore r.score
               hasSummary := (findSummaryRow summaries email.id).isSome })

/-! ## Concrete data for the witnesses. -/

/-- A reachable, healthy vector-index environment. -/
def qenvOkExample : QdrantEnv :=
  { connOk := true, connMsg := "", collectionExists := true,
    upsertOk := true, upsertMsg := "" }

def payloadExample : VectorPayload :=
  { emailRawId := 9, subject := "s", summary := .str "sum",
    fromEmail := "a@b.c", userId := 1 }

/-- Two stored vectors: one for owner 1, one for owner 2. -/
def pointsExampleAB : List QdrantPoint :=
  [ { id := 101, vector := [1],
      payload := { emailRawId := 101, subject := "a", summary := .str "sa",
                   fromEmail := "x@a.com", userId := 1 } },
    { id := 202, vector := [2],
      payload := { emailRawId := 202, subject := "b", summary := .str "sb",
                   fromEmail := "y@b.com", userId := 2 } } ]

/-- Owner 2's vector scores strictly higher than owner 1's. -/
def scoreOfExample : Nat → Rat :=
  fun ident => if ident == 202 then (9 : Rat) / 10 else (3 : Rat) / 5

/-- The hit owner 1's search returns. -/
def hitExampleA : SearchHit :=
  { id := 101, score := (3 : Rat) / 5,
    payload := { emailRawId := 101, subject := "a", summary := .str "sa",
                 fromEmail := "x@a.com", userId := 1 } }

def emailRawExample : EmailRaw :=
  { id := 1, userId := 7, gmailId := "g1", subject := "Hello", snippet := "sn",
    bodyText := "body text", bodyHtml := "", fromEmail := "a@b.c",
    fromName := "A", threadId := none, parts := [] }

def sdExample : SummaryData :=
  { summary := .str "sum", keyPoints := [], sentiment := .str "neutral",
    category := .str "work", priority := .str "medium" }

def mdExample : MetadataData :=
  { entities := [], topics := [], language := .str "en",
    actionItems := [], tags := [] }

/-- A fully successful enrichment environment. -/
def enrichEnvOk : EnrichEnv :=
  { summarizeResult := .ok sdExample, extractResult := .ok mdExample,
    summarySaveOk := true, metadataSaveOk := true,
    embedResult := .ok [1, 2], qenv := qenvOkExample }

/-- Like `enrichEnvOk` but the metadata save fails (crash between the two
saves). -/
def enrichEnvMetaFail : EnrichEnv :=
  { summarizeResult := .ok sdExample, extractResult := .ok mdExample,
    summarySaveOk := true, metadataSaveOk := false,
    embedResult := .ok [1, 2], qenv := qenvOkExample }

/-- One raw item, nothing enriched yet. -/
def enrichStExample : EnrichState :=
  { emails := [emailRawExample], summaries := [], metadatas := [], points := [] }

/-- Metadata-to-summary direction of the steady-state invariant: every raw
item that has an `email_metadata` row also has an `email_summary` row. -/
def MetaImpliesSummary (st : EnrichState) : Prop :=
  ∀ ident, countMetadatas st.metadatas ident ≠ 0 →
    countSummaries st.summaries ident ≠ 0

end EmailTasker

namespace EmailTasker

/-- C9 -- On renewal failure, `refreshAccessToken` deletes the stored
credential row for the owner (no stale short-lived secret survives in the
store) and fails with an error directing the caller to re-authenticate. -/
theorem refreshAccessToken_failure_deletes_row_and_requires_reauth
    (store : TokenStore) (userId : Nat) (refreshToken : String) (now : Int)
    (msg : String) :
    (refreshAccessToken store userId refreshToken now (.error msg)).1 =
      .error ("Failed to refresh access token: " ++ msg ++ ". Please re-authenticate.") ∧
    findTokenByUserId (refreshAccessToken store userId refreshToken now (.error msg)).2 userId
      = none ∧
    ∀ t ∈ (refreshAccessToken store userId refreshToken now (.error msg)).2,
      t.userId ≠ userId := by
  refine ⟨rfl, ?_, ?_⟩
  · simp only [refreshAccessToken, deleteTokenRows, findTokenByUserId]
    rw [List.find?_eq_none]
    intro t ht
    have := List.of_mem_filter ht
    simp only [bne_iff_ne, ne_eq] at this
    simp [this]
  · intro t ht
    simp only [refreshAccessToken, deleteTokenRows] at ht
    have := List.of_mem_filter ht
    simpa using this

/-- Helper: replacing every row matching `p` by a row that itself matches `p`
makes `find? p` return the replacement, provided some row matched before. -/
theorem find?_map_update (p : GmailToken → Bool) (row : GmailToken)
    (hrow : p row = true) :
    ∀ (store : List GmailToken) (tok : GmailToken), store.find? p = some tok →
      (store.map (fun t => if p t then row else t)).find? p = some row := by
  intro store
  induction store with
  | nil => intro tok h; simp at h
  | cons hd tl ih =>
      intro tok h
      by_cases hhd : p hd = true
      · simp only [List.map_cons, if_pos hhd]
        exact List.find?_cons_of_pos _ hrow
      · rw [List.find?_cons_of_neg _ (by simp [hhd])] at h
        simp only [List.map_cons, if_neg hhd]
        rw [List.find?_cons_of_neg _ (by simp [hhd])]
        exact ih tok h

/-- Helper: after `saveTokenRow store row`, looking up `row.userId` finds the
new row, provided a row with that owner was already present. -/
theorem findTokenByUserId_saveTokenRow_found (store : TokenStore)
    (row tok : GmailToken) (h : findTokenByUserId store row.userId = some tok) :
    findTokenByUserId (saveTokenRow store row) row.userId = some row := by
  unfold findTokenByUserId at h ⊢
  unfold saveTokenRow
  rw [if_pos (by rw [h]; rfl)]
  exact find?_map_update _ row (by simp) store tok h

/-- Helper: every row of `saveTokenRow store row` is the new row or came from
the old store. -/
theorem mem_saveTokenRow (store : TokenStore) (row t : GmailToken)
    (ht : t ∈ saveTokenRow store row) : t = row ∨ t ∈ store := by
  unfold saveTokenRow at ht
  by_cases hc : (store.find? (fun s => s.userId == row.userId)).isSome
  · rw [if_pos hc] at ht
    obtain ⟨a, ha, hat⟩ := List.mem_map.mp ht
    by_cases hp : a.userId == row.userId
    · rw [if_pos hp] at hat; exact Or.inl hat.symm
    · rw [if_neg hp] at hat; exact Or.inr (hat ▸ ha)
  · rw [if_neg hc] at ht
    rcases List.mem_append.mp ht with h | h
    · exact Or.inr h
    · exact Or.inl (List.mem_singleton.mp h)

/-- C10 -- When `saveGmailTokens` runs for an owner who already has a stored
credential row and the `refreshToken` argument is null/undefined, the stored
long-lived refresh token is left unchanged; only the access token and its
expiry are updated, and rows of other owners are untouched. -/
theorem saveGmailTokens_null_refresh_preserves_refresh_token
    (store : TokenStore) (userId : Nat) (accessToken : String)
    (expiryDate : Option Int) (tok : GmailToken)
    (hfound : findTokenByUserId store userId = some tok) :
    findTokenByUserId (saveGmailTokens store userId accessToken none expiryDate) userId =
      some { tok with
              accessToken := some accessToken
              accessTokenExpiry := if jsTruthyNum expiryDate then expiryDate else none } ∧
    ∀ t ∈ saveGmailTokens store userId accessToken none expiryDate,
      t.userId ≠ userId → t ∈ store := by
  have huid : tok.userId = userId := by
    have := List.find?_some hfound
    simpa using this
  subst huid
  simp only [saveGmailTokens, hfound, jsTruthyStr]
  constructor
  · exact findTokenByUserId_saveTokenRow_found store _ tok hfound
  · intro t ht hne
    rcases mem_saveTokenRow store _ t ht with h | h
    · exact absurd (by rw [h]) hne
    · exact h

/-- Helper: effect of `List.set` on `countP`, in balance form. -/
theorem countP_set_balance {α : Type} (p : α → Bool) :
    ∀ (l : List α) (i : Nat) (a b : α), l.get? i = some b →
      (l.set i a).countP p + (if p b then 1 else 0) =
        l.countP p + (if p a then 1 else 0) := by
  intro l
  induction l with
  | nil => intro i a b h; simp at h
  | cons hd tl ih =>
      intro i a b h
      cases i with
      | zero =>
          simp only [List.get?] at h
          cases h
          simp only [List.set, List.countP_cons]
          omega
      | succ j =>
          simp only [List.get?] at h
          simp only [List.set, List.countP_cons]
          have := ih j a b h
          omega

/-- Helper: `countP_set_balance` specialized to the leader count. -/
theorem leaderCountP_set (l : List Caller) (i : Nat) (a b : Caller)
    (h : l.get? i = some b) :
    (l.set i a).countP (fun x => isLeaderPC x.pc) +
        (if isLeaderPC b.pc then 1 else 0) =
      l.countP (fun x => isLeaderPC x.pc) +
        (if isLeaderPC a.pc then 1 else 0) := by
  have := countP_set_balance (fun x => isLeaderPC x.pc) l i a b h
  simpa using this

/-- Helper: a caller found by index is a member. -/
theorem caller_get?_mem {l : List Caller} {i : Nat} {c : Caller}
    (h : l.get? i = some c) : c ∈ l := by
  induction l generalizing i with
  | nil => simp at h
  | cons hd tl ih =>
      cases i with
      | zero => simp only [List.get?] at h; cases h; exact List.mem_cons_self _ _
      | succ j => exact List.mem_cons_of_mem _ (ih h)

/-- Helper: members of `List.set` are the new element or old members. -/
theorem mem_set_or {α : Type} {l : List α} {i : Nat} {a x : α}
    (h : x ∈ l.set i a) : x ∈ l ∨ x = a := by
  induction l generalizing i with
  | nil => simp at h
  | cons hd tl ih =>
      cases i with
      | zero =>
          simp only [List.set] at h
          rcases List.mem_cons.mp h with h | h
          · exact Or.inr h
          · exact Or.inl (List.mem_cons_of_mem _ h)
      | succ j =>
          simp only [List.set] at h
          rcases List.mem_cons.mp h with h | h
          · exact Or.inl (h ▸ List.mem_cons_self _ _)
          · rcases ih h with h | h
            · exact Or.inl (List.mem_cons_of_mem _ h)
            · exact Or.inr h

/-- Preservation: a lock-check step taken before the renewal settles keeps
the invariant and settles nothing. -/
theorem cmStep_check (u : Nat) (s s1 : CMState) (i : Nat)
    (hinv : CMInv u s) (huns : cmSettled s = false)
    (hstep : cmStep s (CMAction.check i) = some s1) :
    CMInv u s1 ∧ cmSettled s1 = false := by
  simp only [cmStep] at hstep
  split at hstep
  case h_2 => exact Option.noConfusion hstep
  case h_1 c hc =>
  have hcmem : c ∈ s.callers := caller_get?_mem hc
  have hcu : c.owner = u := hinv.owners c hcmem
  split at hstep
  case h_2 => exact Option.noConfusion hstep
  case h_1 hpc =>
  split at hstep
  case h_1 r hlk =>
      injection hstep with hstep
      subst hstep
      -- the lock map is nonempty, so by lockLeader it is [(u,0)]
      have hlocks : s.refreshLocks = [(u, 0)] ∧ leaderCount s = 1 := by
        rcases hinv.lockLeader with h | h
        · exact h
        · rw [h.1] at hlk; simp [locksGet] at hlk
      have hr0 : r = 0 := by
        rw [hlocks.1, hcu] at hlk
        simp [locksGet] at hlk
        omega
      subst hr0
      have hren : s.renewals ≠ [] := by
        intro habs
        have := (hinv.noRenewal habs).1
        rw [this] at hlocks
        exact List.noConfusion hlocks.1
      have hcount : leaderCount
          { s with callers := s.callers.set i { c with pc := CallerPC.waiting 0 } } =
          leaderCount s := by
        have hx := leaderCountP_set s.callers i { c with pc := CallerPC.waiting 0 } c hc
        have e1 : isLeaderPC CallerPC.ready = false := rfl
        have e2 : isLeaderPC (CallerPC.waiting 0) = false := rfl
        simp [hpc, e1, e2] at hx
        show (s.callers.set i { c with pc := CallerPC.waiting 0 }).countP
            (fun x => isLeaderPC x.pc) = s.callers.countP (fun x => isLeaderPC x.pc)
        omega
      refine ⟨⟨?_, ?_, ?_, ?_, ?_, ?_, ?_⟩, ?_⟩
      · intro c' hc'
        rcases mem_set_or hc' with h | h
        · exact hinv.owners c' h
        · rw [h]; exact hcu
      · exact hinv.renewalsLen
      · intro habs; exact absurd habs hren
      · intro c' hc' r' hr'
        rcases mem_set_or hc' with h | h
        · exact hinv.pcZero c' h r' hr'
        · rw [h] at hr'
          simp only at hr'
          rcases hr' with h' | h'
          · exact absurd h' (by simp)
          · exact ⟨by injection h' with h''; omega, hren⟩
      · intro c' hc' hdone
        rcases mem_set_or hc' with h | h
        · exact hinv.doneSettled c' h hdone
        · rw [h] at hdone; exact absurd hdone (by simp)
      · rw [hcount]
        exact hinv.lockLeader
      · intro hp
        rw [hcount]
        exact hinv.pendingLeader hp
      · exact huns
  case h_2 hlk =>
      injection hstep with hstep
      subst hstep
      -- the lock map is empty, so no leader exists
      have hlocks : s.refreshLocks = [] ∧ leaderCount s = 0 := by
        rcases hinv.lockLeader with h | h
        · rw [h.1, hcu] at hlk; simp [locksGet] at hlk
        · exact h
      -- before any settle, a nonempty renewal list would mean a pending
      -- renewal, whose leader would contradict the zero leader count
      have hren : s.renewals = [] := by
        cases hrw : s.renewals with
        | nil => rfl
        | cons st rest =>
            exfalso
            have hlen := hinv.renewalsLen
            rw [hrw, List.length_cons] at hlen
            have hrest : rest = [] := List.length_eq_zero.mp (by omega)
            subst hrest
            cases st with
            | some ok =>
                have : cmSettled s = true := by
                  unfold cmSettled
                  rw [hrw]
                  rfl
                rw [huns] at this
                exact Bool.noConfusion this
            | none =>
                have := hinv.pendingLeader (by rw [hrw]; rfl)
                omega
      have hall : ∀ c' ∈ s.callers, c'.pc = CallerPC.ready :=
        (hinv.noRenewal hren).2
      have hrenlen : s.renewals.length = 0 := by rw [hren]; rfl
      have hcount : leaderCount
          { s with
            renewals := s.renewals ++ [none]
            refreshLocks := locksSet s.refreshLocks c.owner s.renewals.length
            callers := s.callers.set i
              { c with pc := CallerPC.leader s.renewals.length } } = 1 := by
        have hx := leaderCountP_set s.callers i
          { c with pc := CallerPC.leader s.renewals.length } c hc
        have e1 : isLeaderPC CallerPC.ready = false := rfl
        have e2 : isLeaderPC (CallerPC.leader s.renewals.length) = true := rfl
        have h0 := hlocks.2
        simp only [leaderCount] at h0
        simp [hpc, e1, e2] at hx
        show (s.callers.set i
          { c with pc := CallerPC.leader s.renewals.length }).countP
            (fun x => isLeaderPC x.pc) = 1
        omega
      refine ⟨⟨?_, ?_, ?_, ?_, ?_, ?_, ?_⟩, ?_⟩
      · intro c' hc'
        rcases mem_set_or hc' with h | h
        · exact hinv.owners c' h
        · rw [h]; exact hcu
      · show (s.renewals ++ [none]).length ≤ 1
        simp [hren]
      · intro habs
        rw [hren] at habs
        exact List.noConfusion habs
      · intro c' hc' r' hr'
        rcases mem_set_or hc' with h | h
        · exact absurd hr' (by rw [hall c' h]; simp)
        · rw [h] at hr'
          simp only at hr'
          rcases hr' with h' | h'
          · refine ⟨by injection h' with h''; omega, ?_⟩
            rw [hren]
            simp
          · exact absurd h' (by simp)
      · intro c' hc' hdone
        rcases mem_set_or hc' with h | h
        · rw [hall c' h] at hdone
          exact absurd hdone (by simp)
        · rw [h] at hdone; exact absurd hdone (by simp)
      · left
        constructor
        · show locksSet s.refreshLocks c.owner s.renewals.length = [(u, 0)]
          rw [hlocks.1, hcu, hrenlen]
          rfl
        · exact hcount
      · intro _
        exact hcount
      · show cmSettled { s with
            renewals := s.renewals ++ [none]
            refreshLocks := locksSet s.refreshLocks c.owner s.renewals.length
            callers := s.callers.set i
              { c with pc := CallerPC.leader s.renewals.length } } = false
        simp [cmSettled, hren]

/-- Preservation: settling the renewal keeps the invariant. -/
theorem cmStep_settle (u : Nat) (s s1 : CMState) (r : Nat) (ok : Bool)
    (hinv : CMInv u s) (hstep : cmStep s (CMAction.settle r ok) = some s1) :
    CMInv u s1 := by
  simp only [cmStep] at hstep
  split at hstep
  case h_2 => exact Option.noConfusion hstep
  case h_1 hg =>
  injection hstep with hstep
  subst hstep
  obtain ⟨hlt, _⟩ := List.get?_eq_some.mp hg
  have hr0 : r = 0 := by
    have := hinv.renewalsLen
    omega
  subst hr0
  -- the renewal list is exactly [none]
  have hshape : s.renewals = [none] := by
    cases hrw : s.renewals with
    | nil => rw [hrw] at hg; exact Option.noConfusion hg
    | cons st rest =>
        have hlen := hinv.renewalsLen
        rw [hrw, List.length_cons] at hlen
        rw [hrw] at hg
        have hrest : rest = [] := List.length_eq_zero.mp (by omega)
        simp at hg
        rw [hg, hrest]
  have hnodone : ∀ c ∈ s.callers, c.pc ≠ CallerPC.done := by
    intro c hc hdone
    obtain ⟨ok', hok'⟩ := hinv.doneSettled c hc hdone
    rw [hshape] at hok'
    simp at hok'
  have hset : s.renewals.set 0 (some ok) = [some ok] := by
    rw [hshape]
    rfl
  refine ⟨?_, ?_, ?_, ?_, ?_, ?_, ?_⟩
  · exact hinv.owners
  · show (s.renewals.set 0 (some ok)).length ≤ 1
    rw [hset]
    simp
  · intro habs
    rw [hset] at habs
    exact List.noConfusion habs
  · intro c hc r' hr'
    obtain ⟨h1, _⟩ := hinv.pcZero c hc r' hr'
    refine ⟨h1, ?_⟩
    intro habs
    rw [hset] at habs
    exact List.noConfusion habs
  · intro c hc hdone
    exact absurd hdone (hnodone c hc)
  · exact hinv.lockLeader
  · intro hp
    rw [hset] at hp
    simp at hp

/-- Preservation: the leader's `finally` step keeps the invariant and does
not change whether the renewal has settled. -/
theorem cmStep_finish (u : Nat) (s s1 : CMState) (i : Nat)
    (hinv : CMInv u s) (hstep : cmStep s (CMAction.finish i) = some s1) :
    CMInv u s1 ∧ cmSettled s1 = cmSettled s := by
  simp only [cmStep] at hstep
  split at hstep
  case h_2 => exact Option.noConfusion hstep
  case h_1 c hc =>
  have hcmem : c ∈ s.callers := caller_get?_mem hc
  have hcu : c.owner = u := hinv.owners c hcmem
  split at hstep
  case h_2 => exact Option.noConfusion hstep
  case h_1 r hpc =>
  split at hstep
  case h_2 => exact Option.noConfusion hstep
  case h_1 ok hg =>
  injection hstep with hstep
  subst hstep
  have hr0 : r = 0 :=
    (hinv.pcZero c hcmem r (Or.inl hpc)).1
  subst hr0
  have hlocks : s.refreshLocks = [(u, 0)] ∧ leaderCount s = 1 := by
    rcases hinv.lockLeader with h | h
    · exact h
    · exfalso
      have hpos : 0 < leaderCount s := by
        apply List.countP_pos.mpr
        exact ⟨c, hcmem, by simp [hpc, isLeaderPC]⟩
      omega
  have hcount : leaderCount
      { s with
        refreshLocks := locksDelete s.refreshLocks c.owner
        callers := s.callers.set i { c with pc := CallerPC.done } } = 0 := by
    have hx := leaderCountP_set s.callers i { c with pc := CallerPC.done } c hc
    have e1 : isLeaderPC (CallerPC.leader 0) = true := rfl
    have e2 : isLeaderPC CallerPC.done = false := rfl
    have h1 := hlocks.2
    simp only [leaderCount] at h1
    simp [hpc, e1, e2] at hx
    show (s.callers.set i { c with pc := CallerPC.done }).countP
        (fun x => isLeaderPC x.pc) = 0
    omega
  refine ⟨⟨?_, ?_, ?_, ?_, ?_, ?_, ?_⟩, rfl⟩
  · intro c' hc'
    rcases mem_set_or hc' with h | h
    · exact hinv.owners c' h
    · rw [h]; exact hcu
  · exact hinv.renewalsLen
  · intro habs
    exfalso
    rw [habs] at hg
    exact Option.noConfusion hg
  · intro c' hc' r' hr'
    rcases mem_set_or hc' with h | h
    · exact hinv.pcZero c' h r' hr'
    · rw [h] at hr'
      simp only at hr'
      rcases hr' with h' | h' <;> exact absurd h' (by simp)
  · intro c' hc' hdone
    rcases mem_set_or hc' with h | h
    · exact hinv.doneSettled c' h hdone
    · exact ⟨ok, hg⟩
  · right
    constructor
    · show locksDelete s.refreshLocks c.owner = []
      rw [hlocks.1, hcu]
      simp [locksDelete]
    · exact hcount
  · intro hp
    rw [hg] at hp
    simp at hp

/-- Preservation: a waiter resuming keeps the invariant and does not change
whether the renewal has settled. -/
theorem cmStep_resume (u : Nat) (s s1 : CMState) (i : Nat)
    (hinv : CMInv u s) (hstep : cmStep s (CMAction.resume i) = some s1) :
    CMInv u s1 ∧ cmSettled s1 = cmSettled s := by
  simp only [cmStep] at hstep
  split at hstep
  case h_2 => exact Option.noConfusion hstep
  case h_1 c hc =>
  have hcmem : c ∈ s.callers := caller_get?_mem hc
  have hcu : c.owner = u := hinv.owners c hcmem
  split at hstep
  case h_2 => exact Option.noConfusion hstep
  case h_1 r hpc =>
  split at hstep
  case h_2 => exact Option.noConfusion hstep
  case h_1 ok hg =>
  injection hstep with hstep
  subst hstep
  have hr0 : r = 0 :=
    (hinv.pcZero c hcmem r (Or.inr hpc)).1
  subst hr0
  have hcount : leaderCount
      { s with callers := s.callers.set i { c with pc := CallerPC.done } } =
      leaderCount s := by
    have hx := leaderCountP_set s.callers i { c with pc := CallerPC.done } c hc
    have e1 : isLeaderPC (CallerPC.waiting 0) = false := rfl
    have e2 : isLeaderPC CallerPC.done = false := rfl
    simp [hpc, e1, e2] at hx
    show (s.callers.set i { c with pc := CallerPC.done }).countP
        (fun x => isLeaderPC x.pc) = s.callers.countP (fun x => isLeaderPC x.pc)
    omega
  refine ⟨⟨?_, ?_, ?_, ?_, ?_, ?_, ?_⟩, rfl⟩
  · intro c' hc'
    rcases mem_set_or hc' with h | h
    · exact hinv.owners c' h
    · rw [h]; exact hcu
  · exact hinv.renewalsLen
  · intro habs
    exfalso
    rw [habs] at hg
    exact Option.noConfusion hg
  · intro c' hc' r' hr'
    rcases mem_set_or hc' with h | h
    · exact hinv.pcZero c' h r' hr'
    · rw [h] at hr'
      simp only at hr'
      rcases hr' with h' | h' <;> exact absurd h' (by simp)
  · intro c' hc' hdone
    rcases mem_set_or hc' with h | h
    · exact hinv.doneSettled c' h hdone
    · exact ⟨ok, hg⟩
  · rw [hcount]
    exact hinv.lockLeader
  · intro hp
    rw [hcount]
    exact hinv.pendingLeader hp

/-- Preservation along a whole schedule whose lock-checks all happen while
the (single) renewal is still in flight. -/
theorem cmRun_inv (u : Nat) :
    ∀ (as : List CMAction) (s s' : CMState), CMInv u s →
      checksDuringFlight as = true →
      (cmSettled s = true → as.all (fun b => !isCheck b) = true) →
      cmRun s as = some s' → CMInv u s' := by
  intro as
  induction as with
  | nil =>
      intro s s' hinv _ _ hrun
      simp only [cmRun] at hrun
      injection hrun with hrun
      exact hrun ▸ hinv
  | cons a rest ih =>
      intro s s' hinv hflight hsett hrun
      simp only [cmRun] at hrun
      split at hrun
      case h_2 => exact Option.noConfusion hrun
      case h_1 s1 hstep =>
      have hflight' : checksDuringFlight rest = true := by
        simp only [checksDuringFlight, Bool.and_eq_true] at hflight
        exact hflight.2
      cases a with
      | check i =>
          have huns : cmSettled s = false := by
            cases h : cmSettled s with
            | false => rfl
            | true =>
                have := hsett h
                simp [isCheck] at this
          obtain ⟨hinv1, huns1⟩ := cmStep_check u s s1 i hinv huns hstep
          exact ih s1 s' hinv1 hflight'
            (by rw [huns1]; intro h; exact Bool.noConfusion h) hrun
      | settle r ok =>
          have hinv1 := cmStep_settle u s s1 r ok hinv hstep
          have hnoch : rest.all (fun b => !isCheck b) = true := by
            simp only [checksDuringFlight, Bool.and_eq_true] at hflight
            have := hflight.1
            simp only [isSettle] at this
            simpa using this
          exact ih s1 s' hinv1 hflight' (fun _ => hnoch) hrun
      | finish i =>
          obtain ⟨hinv1, heq⟩ := cmStep_finish u s s1 i hinv hstep
          refine ih s1 s' hinv1 hflight' ?_ hrun
          intro h
          have := hsett (heq ▸ h)
          simp only [List.all_cons, Bool.and_eq_true] at this
          exact this.2
      | resume i =>
          obtain ⟨hinv1, heq⟩ := cmStep_resume u s s1 i hinv hstep
          refine ih s1 s' hinv1 hflight' ?_ hrun
          intro h
          have := hsett (heq ▸ h)
          simp only [List.all_cons, Bool.and_eq_true] at this
          exact this.2
/-- C1 -- Single-flight credential renewal: when `n` concurrent
`getValidAccessToken` calls for owner `u` all observe a cached short-lived
credential that is expired or within the 5-minute margin, and every caller
reaches the lock-check while the renewal is still in flight, then at most
one renewal ever starts; as soon as any caller has passed the lock-check
exactly one renewal has started; every caller that awaits does so on that
same first renewal (id 0); and once all callers have completed, the
per-owner map entry has been removed, whatever the renewal's outcome. -/
theorem getValidAccessToken_single_flight
    (u n : Nat) (tok : GmailToken) (now : Int)
    (hstale : tokenStillValid tok now = false)
    (as : List CMAction) (s : CMState)
    (hconc : checksDuringFlight as = true)
    (hrun : cmRun (cmInit u n (some tok) now) as = some s) :
    s.renewals.length ≤ 1 ∧
    ((∃ c ∈ s.callers, c.pc ≠ CallerPC.ready) → s.renewals.length = 1) ∧
    (∀ c ∈ s.callers, ∀ r : Nat,
      c.pc = CallerPC.leader r ∨ c.pc = CallerPC.waiting r → r = 0) ∧
    ((∀ c ∈ s.callers, c.pc = CallerPC.done) → locksGet s.refreshLocks u = none) := by
  have hentry : getValidAccessTokenEntry (some tok) now = CallerPC.ready := by
    simp [getValidAccessTokenEntry, hstale]
  have hinv0 : CMInv u (cmInit u n (some tok) now) := by
    refine ⟨?_, ?_, ?_, ?_, ?_, ?_, ?_⟩
    · intro c hc
      rw [cmInit] at hc
      have := List.eq_of_mem_replicate hc
      rw [this]
    · simp [cmInit]
    · intro _
      refine ⟨rfl, ?_⟩
      intro c hc
      rw [cmInit] at hc
      have := List.eq_of_mem_replicate hc
      rw [this, hentry]
    · intro c hc r hr
      rw [cmInit] at hc
      have := List.eq_of_mem_replicate hc
      rw [this, hentry] at hr
      rcases hr with h | h <;> exact absurd h (by simp)
    · intro c hc hdone
      rw [cmInit] at hc
      have := List.eq_of_mem_replicate hc
      rw [this, hentry] at hdone
      exact absurd hdone (by simp)
    · right
      refine ⟨rfl, ?_⟩
      simp only [leaderCount, cmInit, hentry]
      rw [List.countP_eq_zero]
      intro c hc
      have := List.eq_of_mem_replicate hc
      rw [this]
      simp [isLeaderPC]
    · intro hp
      simp [cmInit] at hp
  have hsett0 : cmSettled (cmInit u n (some tok) now) = false := by
    simp [cmSettled, cmInit]
  have hinv := cmRun_inv u as (cmInit u n (some tok) now) s hinv0 hconc
    (by rw [hsett0]; intro h; exact Bool.noConfusion h) hrun
  refine ⟨hinv.renewalsLen, ?_, ?_, ?_⟩
  · rintro ⟨c, hc, hne⟩
    have hlen := hinv.renewalsLen
    cases hrw : s.renewals with
    | nil => exact absurd ((hinv.noRenewal hrw).2 c hc) hne
    | cons st rest =>
        rw [hrw, List.length_cons] at hlen
        have hrest : rest = [] := List.length_eq_zero.mp (by omega)
        rw [hrest]
        rfl
  · intro c hc r hr
    exact (hinv.pcZero c hc r hr).1
  · intro hall
    have hcount : leaderCount s = 0 := by
      simp only [leaderCount]
      rw [List.countP_eq_zero]
      intro c hc
      rw [hall c hc]
      simp [isLeaderPC]
    rcases hinv.lockLeader with h | h
    · omega
    · rw [h.1]; rfl

/-- Witness for C1: owner 7, two concurrent callers, an expired cached
token; schedule: both callers check, the renewal settles (successfully),
the leader's `finally` runs, the waiter resumes. -/
theorem getValidAccessToken_single_flight_witness :
    tokenStillValid cmTokExample 1000000 = false ∧
    checksDuringFlight cmScheduleExample = true ∧
    cmRun (cmInit 7 2 (some cmTokExample) 1000000) cmScheduleExample =
      some cmFinalExample ∧
    cmFinalExample.renewals.length ≤ 1 ∧
    ((∃ c ∈ cmFinalExample.callers, c.pc ≠ CallerPC.ready) →
      cmFinalExample.renewals.length = 1) ∧
    (∀ c ∈ cmFinalExample.callers, ∀ r : Nat,
      c.pc = CallerPC.leader r ∨ c.pc = CallerPC.waiting r → r = 0) ∧
    ((∀ c ∈ cmFinalExample.callers, c.pc = CallerPC.done) →
      locksGet cmFinalExample.refreshLocks 7 = none) := by
  refine ⟨by decide, by decide, by decide, ?_⟩
  exact getValidAccessToken_single_flight 7 2 cmTokExample 1000000 (by decide)
    cmScheduleExample cmFinalExample (by decide) (by decide)

/-- Helper: `emailExists` over an appended row. -/
theorem emailExists_append_row (rows : List EmailRaw) (n : Nat) (row : EmailRaw)
    (g : String) (u : Nat) :
    emailExists ⟨rows ++ [row], n⟩ g u =
      (emailExists ⟨rows, n⟩ g u || (row.gmailId == g && row.userId == u)) := by
  simp [emailExists, List.any_append]

/-- Helper: `countEmails` over an appended row. -/
theorem countEmails_append_row (rows : List EmailRaw) (n : Nat) (row : EmailRaw)
    (g : String) (u : Nat) :
    countEmails ⟨rows ++ [row], n⟩ g u =
      countEmails ⟨rows, n⟩ g u +
        (if row.gmailId == g && row.userId == u then 1 else 0) := by
  by_cases h : (row.gmailId == g && row.userId == u) = true
  · simp [countEmails, List.filter_append, h]
  · simp [countEmails, List.filter_append, h]

/-- Helper: the dedup check holds exactly when a row is counted. -/
theorem emailExists_true_iff (st : EmailStore) (g : String) (u : Nat) :
    emailExists st g u = true ↔ countEmails st g u ≠ 0 := by
  unfold emailExists countEmails
  rw [List.any_eq_true]
  constructor
  · rintro ⟨r, hr, hp⟩ h0
    rw [List.length_eq_zero] at h0
    have hmem : r ∈ List.filter (fun r => r.gmailId == g && r.userId == u) st.rows :=
      List.mem_filter.mpr ⟨hr, hp⟩
    rw [h0] at hmem
    exact absurd hmem (List.not_mem_nil r)
  · intro h
    have hne : List.filter (fun r => r.gmailId == g && r.userId == u) st.rows ≠ [] := by
      intro he
      rw [he] at h
      exact h rfl
    obtain ⟨r, hr⟩ := List.exists_mem_of_ne_nil _ hne
    have hm := List.mem_filter.mp hr
    exact ⟨r, hm.1, hm.2⟩

/-- Helper: a fresh pair has zero rows. -/
theorem countEmails_eq_zero_of_not_exists (st : EmailStore) (g : String) (u : Nat)
    (h : emailExists st g u = false) : countEmails st g u = 0 := by
  by_contra hc
  have := (emailExists_true_iff st g u).mpr hc
  rw [h] at this
  exact Bool.noConfusion this

/-- Helper: first-call characterization of the message loop on a list of
fresh, distinct, successfully fetched ids: everything is stored once and
nothing is skipped. -/
theorem fetchLoop_fresh (env : FetchEnv) (userId : Nat) :
    ∀ (ids : List String) (acc : FetchLoopState),
      ids.Nodup →
      (∀ g ∈ ids, emailExists acc.store g userId = false) →
      (∀ g ∈ ids, itemFails env g = false) →
      ((ids.map some).foldl (processMessage env userId) acc).storedCount =
          acc.storedCount + ids.length ∧
      ((ids.map some).foldl (processMessage env userId) acc).skippedCount =
          acc.skippedCount ∧
      (∀ (g : String) (u' : Nat),
        countEmails ((ids.map some).foldl (processMessage env userId) acc).store g u' =
          countEmails acc.store g u' + (if g ∈ ids ∧ u' = userId then 1 else 0)) := by
  intro ids
  induction ids with
  | nil =>
      intro acc _ _ _
      refine ⟨by simp, by simp, ?_⟩
      intro g u'
      simp
  | cons g0 rest ih =>
      intro acc hnd hfresh hfail
      have hex : emailExists acc.store g0 userId = false :=
        hfresh g0 (List.mem_cons_self _ _)
      have hf0 : itemFails env g0 = false := hfail g0 (List.mem_cons_self _ _)
      have hg0rest : g0 ∉ rest := (List.nodup_cons.mp hnd).1
      cases hgm : env.getMessage g0 with
      | error e =>
          exfalso
          unfold itemFails at hf0
          rw [hgm] at hf0
          simp at hf0
      | ok d =>
          have hps : d.hasPayload = true ∧ env.saveFails g0 = false := by
            unfold itemFails at hf0
            rw [hgm] at hf0
            simpa using hf0
          have hstep : processMessage env userId acc (some g0) =
              { store := ⟨acc.store.rows ++
                  [buildEmailRaw acc.store.nextId userId g0 d],
                  acc.store.nextId + 1⟩
                storedCount := acc.storedCount + 1
                skippedCount := acc.skippedCount
                storedEmailIds := acc.storedEmailIds ++ [acc.store.nextId]
                fetchedIds := acc.fetchedIds ++ [g0] } := by
            simp [processMessage, hex, hgm, hps.1, hps.2]
          have hstore : (processMessage env userId acc (some g0)).store =
              ⟨acc.store.rows ++ [buildEmailRaw acc.store.nextId userId g0 d],
                acc.store.nextId + 1⟩ := by
            rw [hstep]
          have hsc : (processMessage env userId acc (some g0)).storedCount =
              acc.storedCount + 1 := by
            rw [hstep]
          have hsk : (processMessage env userId acc (some g0)).skippedCount =
              acc.skippedCount := by
            rw [hstep]
          have hfresh' : ∀ g ∈ rest,
              emailExists (processMessage env userId acc (some g0)).store
                g userId = false := by
            intro g hg
            rw [hstore, emailExists_append_row]
            have hne : g0 ≠ g := fun he => hg0rest (he ▸ hg)
            have hrow :
                ((buildEmailRaw acc.store.nextId userId g0 d).gmailId == g) = false := by
              simp [buildEmailRaw]
              exact hne
            rw [hrow]
            simp only [Bool.false_and, Bool.or_false]
            exact hfresh g (List.mem_cons_of_mem _ hg)
          obtain ⟨ih1, ih2, ih3⟩ := ih (processMessage env userId acc (some g0))
            (List.nodup_cons.mp hnd).2 hfresh'
            (fun g hg => hfail g (List.mem_cons_of_mem _ hg))
          rw [List.map_cons, List.foldl_cons]
          refine ⟨?_, ?_, ?_⟩
          · rw [ih1, hsc, List.length_cons]
            omega
          · rw [ih2, hsk]
          · intro g u'
            rw [ih3 g u', hstore, countEmails_append_row]
            have hid : countEmails ⟨acc.store.rows, acc.store.nextId + 1⟩ g u' =
                countEmails acc.store g u' := rfl
            rw [hid]
            by_cases hg : g = g0
            · subst hg
              by_cases hu : u' = userId
              · subst hu
                have hcond : ((buildEmailRaw acc.store.nextId u' g d).gmailId == g &&
                    (buildEmailRaw acc.store.nextId u' g d).userId == u') = true := by
                  simp [buildEmailRaw]
                rw [hcond]
                rw [if_neg (fun hq : g ∈ rest ∧ u' = u' => hg0rest hq.1)]
                rw [if_pos (⟨List.mem_cons_self _ _, rfl⟩ : g ∈ g :: rest ∧ u' = u')]
                simp
              · have hcond : ((buildEmailRaw acc.store.nextId userId g d).gmailId == g &&
                    (buildEmailRaw acc.store.nextId userId g d).userId == u') = false := by
                  simp [buildEmailRaw]
                  exact fun he => hu he.symm
                rw [hcond]
                rw [if_neg (fun hq : g ∈ rest ∧ u' = userId => hu hq.2)]
                rw [if_neg (fun hq : g ∈ g :: rest ∧ u' = userId => hu hq.2)]
                simp
            · have hcond : ((buildEmailRaw acc.store.nextId userId g0 d).gmailId == g &&
                  (buildEmailRaw acc.store.nextId userId g0 d).userId == u') = false := by
                have hx : ((buildEmailRaw acc.store.nextId userId g0 d).gmailId == g)
                    = false := by
                  simp [buildEmailRaw]
                  exact fun he => hg he.symm
                rw [hx]
                exact Bool.false_and _
              rw [hcond]
              have hmem : (g ∈ g0 :: rest ∧ u' = userId) ↔ (g ∈ rest ∧ u' = userId) := by
                constructor
                · rintro ⟨hm, hx⟩
                  rcases List.mem_cons.mp hm with h | h
                  · exact absurd h hg
                  · exact ⟨h, hx⟩
                · rintro ⟨hm, hx⟩
                  exact ⟨List.mem_cons_of_mem _ hm, hx⟩
              by_cases hc : g ∈ rest ∧ u' = userId
              · rw [if_pos hc, if_pos (hmem.mpr hc)]
                simp
              · rw [if_neg hc, if_neg (fun hq => hc (hmem.mp hq))]
                simp

/-- Helper: second-call characterization -- when every listed id is already
present for this owner, the loop only counts skips: no fetch, no store. -/
theorem fetchLoop_allPresent (env : FetchEnv) (userId : Nat) :
    ∀ (ids : List String) (acc : FetchLoopState),
      (∀ g ∈ ids, emailExists acc.store g userId = true) →
      ((ids.map some).foldl (processMessage env userId) acc) =
        { acc with skippedCount := acc.skippedCount + ids.length } := by
  intro ids
  induction ids with
  | nil => intro acc _; simp
  | cons g0 rest ih =>
      intro acc hall
      have hex : emailExists acc.store g0 userId = true :=
        hall g0 (List.mem_cons_self _ _)
      have hstep : processMessage env userId acc (some g0) =
          { acc with skippedCount := acc.skippedCount + 1 } := by
        simp [processMessage, hex]
      rw [List.map_cons, List.foldl_cons, hstep]
      rw [ih { store := acc.store, storedCount := acc.storedCount,
               skippedCount := acc.skippedCount + 1,
               storedEmailIds := acc.storedEmailIds, fetchedIds := acc.fetchedIds }
            (fun g hg => hall g (List.mem_cons_of_mem _ hg))]
      simp
      omega

/-- Helper: one loop iteration only reads the store and the counters, never
the fetch trace, so states equal up to the trace stay equal up to it. -/
theorem processMessage_sameResult (env : FetchEnv) (userId : Nat)
    (a b : FetchLoopState) (m : Option String)
    (h : loopStateSameResult a b) :
    loopStateSameResult (processMessage env userId a m)
      (processMessage env userId b m) := by
  obtain ⟨h1, h2, h3, h4⟩ := h
  cases m with
  | none => exact ⟨h1, h2, h3, h4⟩
  | some mid =>
      simp only [processMessage, h1, h2, h3, h4]
      by_cases hex : emailExists b.store mid userId = true
      · simp [hex, loopStateSameResult]
      · cases hgm : env.getMessage mid with
        | error e => simp [hex, hgm, loopStateSameResult]
        | ok d =>
            by_cases hp : d.hasPayload = true
            · by_cases hs : env.saveFails mid = true
              · simp [hex, hgm, hp, hs, loopStateSameResult]
              · simp [hex, hgm, hp, hs, loopStateSameResult]
            · simp [hex, hgm, hp, loopStateSameResult]

/-- Helper: the loop preserves equality up to the fetch trace. -/
theorem foldl_sameResult (env : FetchEnv) (userId : Nat) :
    ∀ (ms : List (Option String)) (a b : FetchLoopState),
      loopStateSameResult a b →
      loopStateSameResult (ms.foldl (processMessage env userId) a)
        (ms.foldl (processMessage env userId) b) := by
  intro ms
  induction ms with
  | nil => intro a b h; exact h
  | cons m rest ih =>
      intro a b h
      exact ih _ _ (processMessage_sameResult env userId a b m h)

/-- C2 -- Fetch idempotence: running `fetchAndStoreEmails` twice over the
same list of distinct external ids, starting from a store containing none
of them, with every per-message fetch and save succeeding, stores every id
exactly once on the first call; the second call stores nothing, issues no
`messages.get` calls, leaves the store unchanged, and its `skippedCount`
equals the first call's `storedCount`. -/
theorem fetchAndStoreEmails_idempotent
    (env : FetchEnv) (userId : Nat) (st : EmailStore) (ids : List String)
    (t : String)
    (huser : env.userExists = true) (hcred : env.credential = .ok t)
    (hlist : env.listResult = .ok (ids.map some))
    (hnodup : ids.Nodup)
    (hfresh : ∀ g ∈ ids, emailExists st g userId = false)
    (hfail : ∀ g ∈ ids, itemFails env g = false) :
    (fetchAndStoreEmails env userId st).2.storedCount = ids.length ∧
    (fetchAndStoreEmails env userId st).2.skippedCount = 0 ∧
    (fetchAndStoreEmails env userId
        (fetchAndStoreEmails env userId st).2.store).2.storedCount = 0 ∧
    (fetchAndStoreEmails env userId
        (fetchAndStoreEmails env userId st).2.store).2.skippedCount =
      (fetchAndStoreEmails env userId st).2.storedCount ∧
    (fetchAndStoreEmails env userId
        (fetchAndStoreEmails env userId st).2.store).2.store =
      (fetchAndStoreEmails env userId st).2.store ∧
    (fetchAndStoreEmails env userId
        (fetchAndStoreEmails env userId st).2.store).2.fetchedIds = [] ∧
    (∀ g ∈ ids, countEmails (fetchAndStoreEmails env userId st).2.store g userId = 1) := by
  have hred : ∀ s : EmailStore, (fetchAndStoreEmails env userId s).2 =
      runFetchLoop env userId s (ids.map some) := by
    intro s
    simp [fetchAndStoreEmails, huser, hcred, hlist]
  obtain ⟨ih1, ih2, ih3⟩ := fetchLoop_fresh env userId ids (initLoopState st) hnodup
    (fun g hg => hfresh g hg) hfail
  have hcnt1 : ∀ g ∈ ids,
      countEmails (runFetchLoop env userId st (ids.map some)).store g userId = 1 := by
    intro g hg
    unfold runFetchLoop
    rw [ih3 g userId]
    have hsproj : countEmails (initLoopState st).store g userId =
        countEmails st g userId := rfl
    rw [hsproj, countEmails_eq_zero_of_not_exists _ _ _ (hfresh g hg),
      if_pos (⟨hg, rfl⟩ : g ∈ ids ∧ userId = userId)]
  have hpresent : ∀ g ∈ ids,
      emailExists (runFetchLoop env userId st (ids.map some)).store g userId = true := by
    intro g hg
    rw [emailExists_true_iff, hcnt1 g hg]
    exact one_ne_zero
  have hpresent' : ∀ S : EmailStore,
      (runFetchLoop env userId st (ids.map some)).store = S →
      ∀ g ∈ ids, emailExists S g userId = true := by
    intro S hS g hg
    rw [← hS]
    exact hpresent g hg
  refine ⟨?_, ?_, ?_, ?_, ?_, ?_, ?_⟩
  · rw [hred st]
    unfold runFetchLoop
    rw [ih1]
    simp [initLoopState]
  · rw [hred st]
    unfold runFetchLoop
    rw [ih2]
    rfl
  · rw [hred st, hred (runFetchLoop env userId st (ids.map some)).store]
    generalize hS : (runFetchLoop env userId st (ids.map some)).store = S
    unfold runFetchLoop
    rw [fetchLoop_allPresent env userId ids (initLoopState S) (hpresent' S hS)]
    rfl
  · rw [hred st, hred (runFetchLoop env userId st (ids.map some)).store]
    generalize hS : (runFetchLoop env userId st (ids.map some)).store = S
    unfold runFetchLoop
    rw [fetchLoop_allPresent env userId ids (initLoopState S) (hpresent' S hS), ih1]
    simp [initLoopState]
  · rw [hred st, hred (runFetchLoop env userId st (ids.map some)).store]
    generalize hS : (runFetchLoop env userId st (ids.map some)).store = S
    unfold runFetchLoop
    rw [fetchLoop_allPresent env userId ids (initLoopState S) (hpresent' S hS)]
    rfl
  · rw [hred st, hred (runFetchLoop env userId st (ids.map some)).store]
    generalize hS : (runFetchLoop env userId st (ids.map some)).store = S
    unfold runFetchLoop
    rw [fetchLoop_allPresent env userId ids (initLoopState S) (hpresent' S hS)]
    rfl
  · intro g hg
    rw [hred st]
    exact hcnt1 g hg

/-- Witness for C2 at a concrete environment: two fresh messages fetched
twice. -/
theorem fetchAndStoreEmails_idempotent_witness :
    fetchEnvTwoFresh.userExists = true ∧
    fetchEnvTwoFresh.credential = .ok "tok" ∧
    fetchEnvTwoFresh.listResult = .ok (["g1", "g2"].map some) ∧
    (["g1", "g2"] : List String).Nodup ∧
    (∀ g ∈ (["g1", "g2"] : List String),
      emailExists emptyEmailStore g 5 = false) ∧
    (∀ g ∈ (["g1", "g2"] : List String), itemFails fetchEnvTwoFresh g = false) ∧
    ((fetchAndStoreEmails fetchEnvTwoFresh 5 emptyEmailStore).2.storedCount = 2 ∧
     (fetchAndStoreEmails fetchEnvTwoFresh 5 emptyEmailStore).2.skippedCount = 0 ∧
     (fetchAndStoreEmails fetchEnvTwoFresh 5
        (fetchAndStoreEmails fetchEnvTwoFresh 5 emptyEmailStore).2.store).2.storedCount = 0 ∧
     (fetchAndStoreEmails fetchEnvTwoFresh 5
        (fetchAndStoreEmails fetchEnvTwoFresh 5 emptyEmailStore).2.store).2.skippedCount =
       (fetchAndStoreEmails fetchEnvTwoFresh 5 emptyEmailStore).2.storedCount ∧
     (fetchAndStoreEmails fetchEnvTwoFresh 5
        (fetchAndStoreEmails fetchEnvTwoFresh 5 emptyEmailStore).2.store).2.store =
       (fetchAndStoreEmails fetchEnvTwoFresh 5 emptyEmailStore).2.store ∧
     (fetchAndStoreEmails fetchEnvTwoFresh 5
        (fetchAndStoreEmails fetchEnvTwoFresh 5 emptyEmailStore).2.store).2.fetchedIds = [] ∧
     (∀ g ∈ (["g1", "g2"] : List String),
       countEmails (fetchAndStoreEmails fetchEnvTwoFresh 5 emptyEmailStore).2.store g 5 = 1)) := by
  refine ⟨rfl, rfl, rfl, by decide, by decide, by decide, ?_⟩
  have h := fetchAndStoreEmails_idempotent fetchEnvTwoFresh 5 emptyEmailStore
    ["g1", "g2"] "tok" rfl rfl rfl (by decide) (by decide) (by decide)
  simpa using h

/-- C6 -- Fetch error handling: a 401/403/network failure of the initial
listing call maps to the corresponding structured failure result; a
successful listing always yields a success result; and a message that fails
to fetch, has no payload, or fails to save is skipped while the loop
continues identically over the remaining messages (only the fetch-call
trace differs). -/
theorem fetchAndStoreEmails_failure_isolation
    (env : FetchEnv) (userId : Nat) (st : EmailStore)
    (t : String)
    (huser : env.userExists = true) (hcred : env.credential = .ok t) :
    (env.listResult = .error ListErr.http401 →
      (fetchAndStoreEmails env userId st).1 =
        { success := false, count := 0,
          message := "Invalid or expired access token. Please re-authenticate." }) ∧
    (env.listResult = .error ListErr.http403 →
      (fetchAndStoreEmails env userId st).1 =
        { success := false, count := 0,
          message := "Gmail API access denied. Please grant Gmail permissions." }) ∧
    (env.listResult = .error ListErr.enotfound →
      (fetchAndStoreEmails env userId st).1 =
        { success := false, count := 0,
          message := "Network error. Cannot connect to Gmail API." }) ∧
    (env.listResult = .error ListErr.econnrefused →
      (fetchAndStoreEmails env userId st).1 =
        { success := false, count := 0,
          message := "Network error. Cannot connect to Gmail API." }) ∧
    (∀ msgs, env.listResult = .ok msgs →
      (fetchAndStoreEmails env userId st).1.success = true) ∧
    (∀ (ms1 ms2 : List (Option String)) (bad : String),
      emailExists (ms1.foldl (processMessage env userId) (initLoopState st)).store
        bad userId = false →
      itemFails env bad = true →
      loopStateSameResult
        (runFetchLoop env userId st (ms1 ++ some bad :: ms2))
        (runFetchLoop env userId st (ms1 ++ ms2))) := by
  refine ⟨?_, ?_, ?_, ?_, ?_, ?_⟩
  · intro h
    simp [fetchAndStoreEmails, huser, hcred, h, listErrorInner]
  · intro h
    simp [fetchAndStoreEmails, huser, hcred, h, listErrorInner]
  · intro h
    simp [fetchAndStoreEmails, huser, hcred, h, listErrorInner, fetchOuterCatch]
  · intro h
    simp [fetchAndStoreEmails, huser, hcred, h, listErrorInner, fetchOuterCatch]
  · intro msgs h
    simp [fetchAndStoreEmails, huser, hcred, h]
  · intro ms1 ms2 bad hex hfail
    unfold runFetchLoop
    rw [List.foldl_append, List.foldl_append, List.foldl_cons]
    apply foldl_sameResult
    cases hgm : env.getMessage bad with
    | error e =>
        simp [processMessage, hex, hgm, loopStateSameResult]
    | ok d =>
        by_cases hp : d.hasPayload = true
        · have hs : env.saveFails bad = true := by
            unfold itemFails at hfail
            rw [hgm] at hfail
            simpa [hp] using hfail
          simp [processMessage, hex, hgm, hp, hs, loopStateSameResult]
        · simp [processMessage, hex, hgm, hp, loopStateSameResult]

/-- Witness for C6: the 401 mapping at a concrete failing environment, and
the isolation of a concrete failing message. -/
theorem fetchAndStoreEmails_failure_isolation_witness :
    fetchEnv401.userExists = true ∧
    fetchEnv401.credential = .ok "tok" ∧
    fetchEnv401.listResult = .error ListErr.http401 ∧
    (fetchAndStoreEmails fetchEnv401 5 emptyEmailStore).1 =
      { success := false, count := 0,
        message := "Invalid or expired access token. Please re-authenticate." } := by
  refine ⟨rfl, rfl, rfl, ?_⟩
  exact (fetchAndStoreEmails_failure_isolation fetchEnv401 5 emptyEmailStore
    "tok" rfl rfl).1 rfl

/-- C7 -- Contrary to the claim (and to the code's own "Fallback if JSON
parsing fails" comment), parsing the summarization model's output CAN
raise: for the response text `\x7bx\x7d` a brace span is extracted but
`JSON.parse` throws inside the `try`, and the `catch` rethrows it as a
summarization failure, so `summarizeEmail` does not return a value.  The
defaulting the claim describes does hold on the two paths the code has:
when no brace span exists every field is defaulted from the raw text, and
when the span parses, absent keys are defaulted. -/
theorem summarizeEmail_raises_on_unparsable_span :
    summarizeEmail (.ok "\x7bx\x7d") =
      .error "Failed to summarize email: SyntaxError: Unexpected token in JSON" ∧
    summarizeEmail (.ok "no json here") =
      .ok { summary := .str "no json here", keyPoints := [],
            sentiment := .str "neutral", category := .str "other",
            priority := .str "medium" } ∧
    summarizeEmail (.ok "\x7b\"sentiment\": \"positive\"\x7d") =
      .ok { summary := .str "", keyPoints := [],
            sentiment := .str "positive", category := .str "other",
            priority := .str "medium" } := by
  exact ⟨rfl, rfl, rfl⟩

/-- Helper: elements of a descending insertion are the inserted hit or old
elements. -/
theorem mem_insertHitDesc (h x : SearchHit) :
    ∀ l : List SearchHit, x ∈ insertHitDesc h l → x = h ∨ x ∈ l := by
  intro l
  induction l with
  | nil =>
      intro hx
      unfold insertHitDesc at hx
      exact Or.inl (List.mem_singleton.mp hx)
  | cons y ys ih =>
      intro hx
      unfold insertHitDesc at hx
      by_cases hc : h.score ≥ y.score
      · rw [if_pos hc] at hx
        rcases List.mem_cons.mp hx with h1 | h1
        · exact Or.inl h1
        · exact Or.inr h1
      · rw [if_neg hc] at hx
        rcases List.mem_cons.mp hx with h1 | h1
        · exact Or.inr (h1 ▸ List.mem_cons_self _ _)
        · rcases ih h1 with h2 | h2
          · exact Or.inl h2
          · exact Or.inr (List.mem_cons_of_mem _ h2)

/-- Helper: sorting by descending score introduces no new elements. -/
theorem mem_sortHitsDesc (x : SearchHit) :
    ∀ l : List SearchHit, x ∈ sortHitsDesc l → x ∈ l := by
  intro l
  induction l with
  | nil => intro hx; exact absurd hx (List.not_mem_nil x)
  | cons y ys ih =>
      intro hx
      unfold sortHitsDesc at hx
      rcases mem_insertHitDesc y x _ hx with h1 | h1
      · exact h1 ▸ List.mem_cons_self _ _
      · exact List.mem_cons_of_mem _ (ih h1)

/-- C5 -- Owner isolation of the vector search: every hit returned by
`searchSimilarEmails` carries the requesting owner's id in its payload —
the equality filter is applied before ranking, so another owner's vectors
are excluded no matter how high they score. -/
theorem searchSimilarEmails_owner_isolation
    (points : List QdrantPoint) (scoreOf : Nat → Rat) (userId limit : Nat) :
    ∀ hit ∈ searchSimilarEmails points scoreOf userId limit,
      hit.payload.userId = userId := by
  intro hit hmem
  unfold searchSimilarEmails qdrantFilteredSearch at hmem
  have h1 := List.take_subset _ _ hmem
  have h2 := mem_sortHitsDesc hit _ h1
  obtain ⟨p, hp, hph⟩ := List.mem_map.mp h2
  have hf := List.mem_filter.mp hp
  have heq : p.payload.userId = userId := by simpa using hf.2
  rw [← hph]
  exact heq

/-- Witness for C5: owner 2's vector scores strictly higher, yet owner 1's
search returns only the hit whose payload belongs to owner 1. -/
theorem searchSimilarEmails_owner_isolation_witness :
    scoreOfExample 202 > scoreOfExample 101 ∧
    hitExampleA ∈ searchSimilarEmails pointsExampleAB scoreOfExample 1 10 ∧
    hitExampleA.payload.userId = 1 := by
  have hres : searchSimilarEmails pointsExampleAB scoreOfExample 1 10 =
      [hitExampleA] := rfl
  have hmem : hitExampleA ∈ searchSimilarEmails pointsExampleAB scoreOfExample 1 10 := by
    rw [hres]
    exact List.mem_cons_self _ _
  refine ⟨by norm_num [scoreOfExample], hmem, ?_⟩
  exact searchSimilarEmails_owner_isolation pointsExampleAB scoreOfExample 1 10
    hitExampleA hmem

/-- C8 (counterexample) -- Upserting with point id 0 does fail with the
validation error and no point is written, but NOT before any network call:
`ensureCollection` has already issued two collection-listing calls to the
vector index when the id check runs. -/
theorem storeEmailEmbedding_network_call_before_validation :
    (storeEmailEmbedding qenvOkExample [] 0 [1] payloadExample).1 =
      .error "Qdrant storage failed: Invalid emailId: 0. Must be a positive integer." ∧
    (storeEmailEmbedding qenvOkExample [] 0 [1] payloadExample).2.2 =
      [QdrantCall.getCollections, QdrantCall.getCollections] := by
  exact ⟨rfl, rfl⟩

/-- C8 (amended) -- With the vector index reachable, a non-positive or
non-integer point id makes `storeEmailEmbedding` fail with the validation
error (wrapped by the outer catch) and no point is written — the upsert
call is never issued and the stored points are unchanged — but only after
`ensureCollection` has already issued its collection-listing network
call(s), not before any network call. -/
theorem storeEmailEmbedding_invalid_id_no_upsert
    (qenv : QdrantEnv) (points : List QdrantPoint) (emailId : Rat)
    (embedding : List Int) (payload : VectorPayload)
    (hconn : qenv.connOk = true)
    (hbad : (isJsInteger emailId && decide (emailId > 0)) = false) :
    (storeEmailEmbedding qenv points emailId embedding payload).1 =
      .error ("Qdrant storage failed: Invalid emailId: " ++ toString emailId ++
        ". Must be a positive integer.") ∧
    (storeEmailEmbedding qenv points emailId embedding payload).2.1 = points ∧
    QdrantCall.upsertPoints ∉
      (storeEmailEmbedding qenv points emailId embedding payload).2.2 ∧
    QdrantCall.getCollections ∈
      (storeEmailEmbedding qenv points emailId embedding payload).2.2 := by
  unfold storeEmailEmbedding ensureCollection
  rw [hconn]
  by_cases hc : qenv.collectionExists = true
  · simp [hc, hbad]
  · simp [hc, hbad]

/-- Witness for C8 (amended) at point id -3. -/
theorem storeEmailEmbedding_invalid_id_no_upsert_witness :
    qenvOkExample.connOk = true ∧
    (isJsInteger (-3 : Rat) && decide ((-3 : Rat) > 0)) = false ∧
    ((storeEmailEmbedding qenvOkExample [] (-3) [1] payloadExample).1 =
      .error ("Qdrant storage failed: Invalid emailId: " ++ toString (-3 : Rat) ++
        ". Must be a positive integer.") ∧
    (storeEmailEmbedding qenvOkExample [] (-3) [1] payloadExample).2.1 = [] ∧
    QdrantCall.upsertPoints ∉
      (storeEmailEmbedding qenvOkExample [] (-3) [1] payloadExample).2.2 ∧
    QdrantCall.getCollections ∈
      (storeEmailEmbedding qenvOkExample [] (-3) [1] payloadExample).2.2) := by
  refine ⟨rfl, by decide, ?_⟩
  exact storeEmailEmbedding_invalid_id_no_upsert qenvOkExample [] (-3) [1]
    payloadExample rfl (by decide)

/-- Helper: `processEmail` returns the state unchanged and makes no
external call when a summary row already exists (also when the raw row is
missing). -/
theorem processEmail_skip_of_summary (env : EnrichEnv) (st : EnrichState)
    (emailId : Nat)
    (hsum : (findSummaryRow st.summaries emailId).isSome = true) :
    processEmail env st emailId = (st, [], .ok ()) := by
  unfold processEmail
  cases he : findEmailRaw st.emails emailId with
  | none => rfl
  | some email =>
      cases hs : findSummaryRow st.summaries emailId with
      | none => rw [hs] at hsum; exact Bool.noConfusion hsum
      | some row => rfl

/-- Helper: `countSummaries` over an appended row. -/
theorem countSummaries_append (summaries : List EmailSummaryRow)
    (row : EmailSummaryRow) (ident : Nat) :
    countSummaries (summaries ++ [row]) ident =
      countSummaries summaries ident +
        (if row.emailRawId == ident then 1 else 0) := by
  by_cases h : (row.emailRawId == ident) = true
  · simp [countSummaries, List.filter_append, h]
  · simp [countSummaries, List.filter_append, h]

/-- Helper: `countMetadatas` over an appended row. -/
theorem countMetadatas_append (metadatas : List EmailMetadataRow)
    (row : EmailMetadataRow) (ident : Nat) :
    countMetadatas (metadatas ++ [row]) ident =
      countMetadatas metadatas ident +
        (if row.emailRawId == ident then 1 else 0) := by
  by_cases h : (row.emailRawId == ident) = true
  · simp [countMetadatas, List.filter_append, h]
  · simp [countMetadatas, List.filter_append, h]

/-- Helper: updating a row's `qdrantId` changes no counts. -/
theorem countSummaries_update (summaries : List EmailSummaryRow) (ident : Nat)
    (qid : Rat) (ident2 : Nat) :
    countSummaries (updateSummaryQdrantId summaries ident qid) ident2 =
      countSummaries summaries ident2 := by
  unfold countSummaries updateSummaryQdrantId
  rw [← List.countP_eq_length_filter, ← List.countP_eq_length_filter, List.countP_map]
  apply List.countP_congr
  intro a _
  by_cases hs : (a.emailRawId == ident) = true
  · simp only [Function.comp_apply, if_pos hs]
  · simp only [Function.comp_apply, if_neg hs]

/-- Helper: a `Nat` beq-if equals the propositional if. -/
theorem if_beq_nat (emailId ident : Nat) :
    (if (emailId == ident) = true then 1 else 0) =
      (if ident = emailId then 1 else 0) := by
  by_cases h : ident = emailId
  · simp [h]
  · have : (emailId == ident) = false := by
      simp
      exact fun he => h he.symm
    simp [this, h]

/-- Helper: a summary lookup succeeds exactly when a row is counted. -/
theorem findSummaryRow_isSome_iff (summaries : List EmailSummaryRow)
    (ident : Nat) :
    (findSummaryRow summaries ident).isSome = true ↔
      countSummaries summaries ident ≠ 0 := by
  unfold findSummaryRow countSummaries
  rw [List.find?_isSome]
  constructor
  · rintro ⟨s, hs, hp⟩ h0
    rw [List.length_eq_zero] at h0
    have hmem : s ∈ List.filter (fun s => s.emailRawId == ident) summaries :=
      List.mem_filter.mpr ⟨hs, hp⟩
    rw [h0] at hmem
    exact absurd hmem (List.not_mem_nil s)
  · intro h
    have hne : List.filter (fun s => s.emailRawId == ident) summaries ≠ [] :=
      fun he => h (by rw [he]; rfl)
    obtain ⟨s, hs⟩ := List.exists_mem_of_ne_nil _ hne
    have hm := List.mem_filter.mp hs
    exact ⟨s, hm.1, hm.2⟩

/-- Helper: with the raw row present, no prior summary row and both saves
succeeding, one `processEmail` run adds exactly one summary row and one
metadata row for the target id, whatever the embedding and vector-index
outcomes. -/
theorem processEmail_success_tables (env : EnrichEnv) (st : EnrichState)
    (emailId : Nat) (email : EmailRaw) (sd : SummaryData) (md : MetadataData)
    (he : findEmailRaw st.emails emailId = some email)
    (hs : findSummaryRow st.summaries emailId = none)
    (hsum : env.summarizeResult = Except.ok sd)
    (hext : env.extractResult = Except.ok md)
    (hssave : env.summarySaveOk = true)
    (hmsave : env.metadataSaveOk = true) :
    (∀ ident, countSummaries (processEmail env st emailId).1.summaries ident =
      countSummaries st.summaries ident + (if ident = emailId then 1 else 0)) ∧
    (∀ ident, countMetadatas (processEmail env st emailId).1.metadatas ident =
      countMetadatas st.metadatas ident + (if ident = emailId then 1 else 0)) := by
  have hcore : ∀ ident,
      countSummaries (st.summaries ++ [mkSummaryRow emailId sd]) ident =
        countSummaries st.summaries ident + (if ident = emailId then 1 else 0) := by
    intro ident
    rw [countSummaries_append]
    exact congrArg _ (if_beq_nat emailId ident)
  have hmcore : ∀ ident,
      countMetadatas (st.metadatas ++ [mkMetadataRow emailId email md]) ident =
        countMetadatas st.metadatas ident + (if ident = emailId then 1 else 0) := by
    intro ident
    rw [countMetadatas_append]
    exact congrArg _ (if_beq_nat emailId ident)
  cases hemb : env.embedResult with
  | error e =>
      have hres : (processEmail env st emailId).1 =
          { st with
              summaries := st.summaries ++ [mkSummaryRow emailId sd]
              metadatas := st.metadatas ++ [mkMetadataRow emailId email md] } := by
        unfold processEmail
        rw [he, hs, hsum, hext, hssave, hmsave, hemb]
        rfl
      refine ⟨?_, ?_⟩
      · intro ident
        rw [hres]
        exact hcore ident
      · intro ident
        rw [hres]
        exact hmcore ident
  | ok embedding =>
      by_cases hlen : (embedding.length == 0) = true
      · have hres : (processEmail env st emailId).1 =
            { st with
                summaries := st.summaries ++ [mkSummaryRow emailId sd]
                metadatas := st.metadatas ++ [mkMetadataRow emailId email md] } := by
          simp only [processEmail, he, hs, hsum, hext, hssave, hmsave, hemb, hlen,
            Bool.not_true, Bool.not_false, Bool.false_eq_true, if_false, if_true]
        refine ⟨?_, ?_⟩
        · intro ident
          rw [hres]
          exact hcore ident
        · intro ident
          rw [hres]
          exact hmcore ident
      · have hlen2 : (embedding.length == 0) = false := by
          rwa [Bool.not_eq_true] at hlen
        rcases hq : storeEmailEmbedding env.qenv st.points (emailId : Rat)
            embedding (mkVectorPayload emailId email sd) with ⟨r, points2, qcalls⟩
        cases r with
        | error msg =>
            have hres : (processEmail env st emailId).1 =
                { st with
                    summaries := st.summaries ++ [mkSummaryRow emailId sd]
                    metadatas := st.metadatas ++ [mkMetadataRow emailId email md]
                    points := points2 } := by
              simp only [processEmail, he, hs, hsum, hext, hssave, hmsave, hemb, hlen2,
                hq, Bool.not_true, Bool.not_false, Bool.false_eq_true, if_false, if_true]
            refine ⟨?_, ?_⟩
            · intro ident
              rw [hres]
              exact hcore ident
            · intro ident
              rw [hres]
              exact hmcore ident
        | ok qid =>
            have hres : (processEmail env st emailId).1 =
                { st with
                    summaries := updateSummaryQdrantId
                      (st.summaries ++ [mkSummaryRow emailId sd])
                      emailId qid
                    metadatas := st.metadatas ++ [mkMetadataRow emailId email md]
                    points := points2 } := by
              simp only [processEmail, he, hs, hsum, hext, hssave, hmsave, hemb, hlen2,
                hq, Bool.not_true, Bool.not_false, Bool.false_eq_true, if_false, if_true]
            refine ⟨?_, ?_⟩
            · intro ident
              rw [hres, countSummaries_update]
              exact hcore ident
            · intro ident
              rw [hres]
              exact hmcore ident

/-- Helper: the three possible effects of one `processEmail` run on the two
enrichment tables: nothing; a summary row only (which requires the metadata
save to have failed); or one summary row and one metadata row for the
target id. -/
theorem processEmail_shape (env : EnrichEnv) (st : EnrichState) (emailId : Nat) :
    (processEmail env st emailId).1 = st ∨
    (env.metadataSaveOk = false ∧
      (∀ ident, countSummaries (processEmail env st emailId).1.summaries ident =
        countSummaries st.summaries ident + (if ident = emailId then 1 else 0)) ∧
      (processEmail env st emailId).1.metadatas = st.metadatas) ∨
    ((∀ ident, countSummaries (processEmail env st emailId).1.summaries ident =
        countSummaries st.summaries ident + (if ident = emailId then 1 else 0)) ∧
      (∀ ident, countMetadatas (processEmail env st emailId).1.metadatas ident =
        countMetadatas st.metadatas ident + (if ident = emailId then 1 else 0))) := by
  have hcore : ∀ (sd : SummaryData) (ident : Nat),
      countSummaries (st.summaries ++ [mkSummaryRow emailId sd]) ident =
        countSummaries st.summaries ident + (if ident = emailId then 1 else 0) := by
    intro sd ident
    rw [countSummaries_append]
    exact congrArg _ (if_beq_nat emailId ident)
  have hmcore : ∀ (email : EmailRaw) (md : MetadataData) (ident : Nat),
      countMetadatas (st.metadatas ++ [mkMetadataRow emailId email md]) ident =
        countMetadatas st.metadatas ident + (if ident = emailId then 1 else 0) := by
    intro email md ident
    rw [countMetadatas_append]
    exact congrArg _ (if_beq_nat emailId ident)
  cases he : findEmailRaw st.emails emailId with
  | none =>
      left
      unfold processEmail
      rw [he]
  | some email =>
  cases hs : findSummaryRow st.summaries emailId with
  | some row =>
      left
      unfold processEmail
      rw [he, hs]
  | none =>
  cases hsum : env.summarizeResult with
  | error e =>
      left
      unfold processEmail
      rw [he, hs, hsum]
  | ok summaryData =>
  cases hext : env.extractResult with
  | error e =>
      left
      unfold processEmail
      rw [he, hs, hsum, hext]
  | ok metadata =>
  cases hssave : env.summarySaveOk with
  | false =>
      left
      unfold processEmail
      rw [he, hs, hsum, hext, hssave]
      rfl
  | true =>
  cases hmsave : env.metadataSaveOk with
  | false =>
      have hres : (processEmail env st emailId).1 =
          { st with summaries := st.summaries ++ [mkSummaryRow emailId summaryData] } := by
        unfold processEmail
        rw [he, hs, hsum, hext, hssave, hmsave]
        rfl
      refine Or.inr (Or.inl ⟨rfl, ?_, ?_⟩)
      · intro ident
        rw [hres]
        exact hcore summaryData ident
      · rw [hres]
  | true =>
      exact Or.inr (Or.inr (processEmail_success_tables env st emailId email
        summaryData metadata he hs hsum hext hssave hmsave))

/-- Witness for C10 at a concrete store. -/
theorem saveGmailTokens_null_refresh_preserves_refresh_token_witness :
    findTokenByUserId
        [({ userId := 3, refreshToken := "longlived", accessToken := some "old",
            accessTokenExpiry := some 1000 } : GmailToken)] 3 =
      some { userId := 3, refreshToken := "longlived", accessToken := some "old",
             accessTokenExpiry := some 1000 } ∧
    (findTokenByUserId
        (saveGmailTokens
          [({ userId := 3, refreshToken := "longlived", accessToken := some "old",
              accessTokenExpiry := some 1000 } : GmailToken)] 3 "fresh" none (some 2000)) 3 =
      some { userId := 3, refreshToken := "longlived", accessToken := some "fresh",
             accessTokenExpiry := some 2000 } ∧
    ∀ t ∈ saveGmailTokens
        [({ userId := 3, refreshToken := "longlived", accessToken := some "old",
            accessTokenExpiry := some 1000 } : GmailToken)] 3 "fresh" none (some 2000),
      t.userId ≠ 3 →
        t ∈ [({ userId := 3, refreshToken := "longlived", accessToken := some "old",
                accessTokenExpiry := some 1000 } : GmailToken)]) := by
  constructor
  · decide
  · have h := saveGmailTokens_null_refresh_preserves_refresh_token
      [({ userId := 3, refreshToken := "longlived", accessToken := some "old",
          accessTokenExpiry := some 1000 } : GmailToken)] 3 "fresh" (some 2000)
      { userId := 3, refreshToken := "longlived", accessToken := some "old",
        accessTokenExpiry := some 1000 } (by decide)
    simpa using h

/-- C3 -- Enrichment is idempotent per item: a fully successful run leaves
exactly one summary row for the item; every later run on the resulting
state returns the state unchanged with an empty external-call trace; and in
general the presence of a summary row short-circuits `processEmail` before
any summarization, metadata-extraction or embedding call. -/
theorem processEmail_summary_idempotent (env : EnrichEnv) (st : EnrichState)
    (emailId : Nat) (email : EmailRaw) (sd : SummaryData) (md : MetadataData)
    (he : findEmailRaw st.emails emailId = some email)
    (hnos : findSummaryRow st.summaries emailId = none)
    (hsum : env.summarizeResult = Except.ok sd)
    (hext : env.extractResult = Except.ok md)
    (hssave : env.summarySaveOk = true)
    (hmsave : env.metadataSaveOk = true) :
    countSummaries (processEmail env st emailId).1.summaries emailId = 1 ∧
    (∀ env2, processEmail env2 (processEmail env st emailId).1 emailId =
      ((processEmail env st emailId).1, [], Except.ok ())) ∧
    (∀ env2 st2, (findSummaryRow st2.summaries emailId).isSome = true →
      processEmail env2 st2 emailId = (st2, [], Except.ok ())) := by
  have h0 : countSummaries st.summaries emailId = 0 := by
    by_contra hne
    have hsome := (findSummaryRow_isSome_iff st.summaries emailId).mpr hne
    rw [hnos] at hsome
    exact Bool.noConfusion hsome
  have hcount := (processEmail_success_tables env st emailId email sd md
    he hnos hsum hext hssave hmsave).1 emailId
  rw [h0, if_pos rfl, Nat.zero_add] at hcount
  refine ⟨hcount, ?_,
    fun env2 st2 hs2 => processEmail_skip_of_summary env2 st2 emailId hs2⟩
  intro env2
  apply processEmail_skip_of_summary
  rw [findSummaryRow_isSome_iff, hcount]
  exact Nat.one_ne_zero

/-- Witness for C3 on a concrete one-item store. -/
theorem processEmail_summary_idempotent_witness :
    findEmailRaw enrichStExample.emails 1 = some emailRawExample ∧
    findSummaryRow enrichStExample.summaries 1 = none ∧
    (countSummaries (processEmail enrichEnvOk enrichStExample 1).1.summaries 1 = 1 ∧
     (∀ env2, processEmail env2 (processEmail enrichEnvOk enrichStExample 1).1 1 =
       ((processEmail enrichEnvOk enrichStExample 1).1, [], Except.ok ())) ∧
     (∀ env2 st2, (findSummaryRow st2.summaries 1).isSome = true →
       processEmail env2 st2 1 = (st2, [], Except.ok ()))) :=
  ⟨rfl, rfl, processEmail_summary_idempotent enrichEnvOk enrichStExample 1
    emailRawExample sdExample mdExample rfl rfl rfl rfl rfl rfl⟩

/-- C4 counterexample: a metadata-save failure between the two saves leaves
a summary row without a metadata row, and because the summary row is the
sole short-circuit check, a later fully successful run is a no-op: the
partial state is a steady state in which the two tables disagree. -/
theorem enrichment_both_or_neither_counterexample :
    countSummaries
      (runPipeline [(enrichEnvMetaFail, 1)] enrichStExample).summaries 1 = 1 ∧
    countMetadatas
      (runPipeline [(enrichEnvMetaFail, 1)] enrichStExample).metadatas 1 = 0 ∧
    processEmail enrichEnvOk (runPipeline [(enrichEnvMetaFail, 1)] enrichStExample) 1 =
      (runPipeline [(enrichEnvMetaFail, 1)] enrichStExample, [], Except.ok ()) :=
  ⟨rfl, rfl, rfl⟩

/-- C4 -- Amended invariant: only the metadata-to-summary direction holds in
every state the pipeline can reach — a metadata row is written only in the
same run as, and after, its summary row — while the both-or-neither reading
fails, since a metadata-save failure leaves a permanent
summary-without-metadata steady state. -/
theorem enrichment_metadata_implies_summary (runs : List (EnrichEnv × Nat))
    (st : EnrichState) (hst : MetaImpliesSummary st) :
    MetaImpliesSummary (runPipeline runs st) := by
  induction runs generalizing st with
  | nil => exact hst
  | cons r rest ih =>
      have hstep : MetaImpliesSummary (processEmail r.1 st r.2).1 := by
        rcases processEmail_shape r.1 st r.2 with heq | ⟨hm, hcnt, hmeta⟩ | ⟨hcnt, hmcnt⟩
        · rw [heq]
          exact hst
        · intro ident hne
          rw [hmeta] at hne
          have hbase := hst ident hne
          rw [hcnt ident]
          by_cases hid : ident = r.2
          · rw [if_pos hid]
            omega
          · rw [if_neg hid]
            omega
        · intro ident hne
          rw [hmcnt ident] at hne
          rw [hcnt ident]
          by_cases hid : ident = r.2
          · rw [if_pos hid]
            omega
          · rw [if_neg hid] at hne ⊢
            have hbase := hst ident (by omega)
            omega
      exact ih _ hstep

/-- Witness for C4's amended invariant: the one-item empty-tables state
satisfies the hypothesis, and the invariant holds after a failing run
followed by a fully successful one. -/
theorem enrichment_metadata_implies_summary_witness :
    MetaImpliesSummary enrichStExample ∧
    MetaImpliesSummary
      (runPipeline [(enrichEnvMetaFail, 1), (enrichEnvOk, 1)] enrichStExample) :=
  ⟨fun ident h => absurd rfl h,
   enrichment_metadata_implies_summary [(enrichEnvMetaFail, 1), (enrichEnvOk, 1)]
     enrichStExample (fun ident h => absurd rfl h)⟩

end EmailTasker
